import Mathlib

/-!
Verification development for the FridgePodge recipe API (src/index.js).

The JavaScript source is shallowly embedded: pure helper functions
(`parseIngredient`, `getCoreIngredient`, `parseTime`, ...) become Lean
functions on `String`/`List Char`; the PostgreSQL tables become lists of
row structures inside a `DB` state; every endpoint handler becomes a
function `DB → request → response × DB`.  JavaScript regular-expression
operations are translated to equivalent explicit character-list programs
(word-boundary descriptor stripping, whitespace collapsing, the
measurement pattern with its backtracking order).  Numbers that the code
only ever uses as exact decimals/averages are modelled as `ℚ`.
-/

namespace FridgePodge

/-! ## Character classes

`isWsChar` models the JS regex class `\s` (and `String.prototype.trim`)
restricted to the ASCII whitespace characters; `isWordChar` models `\w`,
used for the `\b` word boundaries of the descriptor-stripping regex;
`isDigitChar` models `\d`; `dotChar` models `.` (which in JS does not
match line terminators). -/

def isWsChar (c : Char) : Bool :=
  c = ' ' || c = '\t' || c = '\n' || c = '\r' || c = '\x0b' || c = '\x0c'

def isWordChar (c : Char) : Bool :=
  c.isAlphanum || c = '_'

def isDigitChar (c : Char) : Bool :=
  '0' ≤ c && c ≤ '9'

def dotChar (c : Char) : Bool :=
  !(c = '\n' || c = '\r' || c = '\u2028' || c = '\u2029')

def lowerList (l : List Char) : List Char := l.map Char.toLower

/-- `s.toLowerCase()` (the inputs handled by the code are ASCII). -/
def lowerStr (s : String) : String := String.mk (lowerList s.data)

/-! ## getCoreIngredient (src/index.js lines 194-214)

```js
function getCoreIngredient(ingredientName) {
  const cleaned = ingredientName
    .toLowerCase()
    .replace(/\b(fresh|dried|frozen|canned|cooked|raw|whole|ground|minced|diced|chopped|sliced)\b/g, '')
    .replace(/\s+/g, ' ')
    .trim();
  const mappings = { 'chicken breast': 'chicken', ... };
  return mappings[cleaned] || cleaned;
}
```

The descriptor words consist of word characters only, so a `\b..\b`
match of the alternation is exactly a maximal `\w`-run equal to one of
the descriptor words; the global replace deletes all such runs.
`removeDescriptorsAux` streams through the characters keeping the
current word-run in `buf` and flushing it (dropped when it is a
descriptor) at each non-word character and at the end of input. -/

def descriptorWords : List String :=
  ["fresh", "dried", "frozen", "canned", "cooked", "raw",
   "whole", "ground", "minced", "diced", "chopped", "sliced"]

def flushWordRun (buf : List Char) : List Char :=
  if descriptorWords.contains (String.mk buf) then [] else buf

def removeDescriptorsAux : List Char → List Char → List Char
  | buf, [] => flushWordRun buf
  | buf, c :: cs =>
    if isWordChar c then removeDescriptorsAux (buf ++ [c]) cs
    else flushWordRun buf ++ c :: removeDescriptorsAux [] cs

/-- `.replace(/\b(fresh|...|sliced)\b/g, '')`. -/
def removeDescriptors (l : List Char) : List Char := removeDescriptorsAux [] l

/-- `.replace(/\s+/g, ' ')`: every maximal whitespace run becomes one
space.  The boolean argument records whether the previous character was
part of a whitespace run whose single space has already been emitted. -/
def collapseWsAux : Bool → List Char → List Char
  | _, [] => []
  | inRun, c :: cs =>
    if isWsChar c then
      (if inRun then [] else [' ']) ++ collapseWsAux true cs
    else c :: collapseWsAux false cs

def collapseWs (l : List Char) : List Char := collapseWsAux false l

/-- `String.prototype.trim()`. -/
def trimWsList (l : List Char) : List Char :=
  ((l.dropWhile isWsChar).reverse.dropWhile isWsChar).reverse

def jsTrim (s : String) : String := String.mk (trimWsList s.data)

/-- The static alias table `mappings` of `getCoreIngredient`, in source
order (plain-object lookup is an exact-match lookup; the keys are
distinct). -/
def ingredientAliases : List (String × String) :=
  [("chicken breast", "chicken"), ("chicken thighs", "chicken"),
   ("chicken wings", "chicken"), ("ground beef", "beef"),
   ("beef steak", "beef"), ("white rice", "rice"), ("brown rice", "rice"),
   ("jasmine rice", "rice"), ("basmati rice", "rice")]

def cleanedName (l : List Char) : List Char :=
  trimWsList (collapseWs (removeDescriptors (lowerList l)))

def getCoreIngredient (ingredientName : String) : String :=
  let cleaned := String.mk (cleanedName ingredientName.data)
  match ingredientAliases.find? (fun p => p.1 = cleaned) with
  | some p => p.2
  | none => cleaned

/-! ## Whitespace tokenisation

`wsTokens l` is the list of maximal non-whitespace runs of `l`.  It is
not part of the source; it is the vocabulary for stating that two
strings "differ only in letter case and in whitespace": they have the
same `wsTokens ∘ lowerList` image. -/

def wsTokensAux : List Char → List Char → List (List Char)
  | buf, [] => if buf = [] then [] else [buf]
  | buf, c :: cs =>
    if isWsChar c then
      (if buf = [] then [] else [buf]) ++ wsTokensAux [] cs
    else wsTokensAux (buf ++ [c]) cs

def wsTokens (l : List Char) : List (List Char) := wsTokensAux [] l

/-! ### Factorisation of `cleanedName` through `wsTokens`

`cleanedName` only looks at the lower-cased whitespace tokens of its
input: descriptor removal happens inside each token (whitespace is never
a word character) and `replace(/\s+/g,' ').trim()` turns any whitespace
layout into single separating spaces.  The lemmas below make this
precise and culminate in `cleanedName_eq_tokens`. -/

theorem isWsChar_not_word {c : Char} (h : isWsChar c = true) : isWordChar c = false := by
  simp only [isWsChar, Bool.or_eq_true, decide_eq_true_eq] at h
  rcases h with ((((h | h) | h) | h) | h) | h <;> subst h <;> decide

theorem flushWordRun_sublist (buf : List Char) :
    flushWordRun buf = [] ∨ flushWordRun buf = buf := by
  by_cases h : descriptorWords.contains (String.mk buf) = true
  · left; unfold flushWordRun; rw [if_pos h]
  · right; unfold flushWordRun; rw [if_neg h]

theorem rdaAux_nil_nil : removeDescriptorsAux ([] : List Char) [] = [] := by
  simp [removeDescriptorsAux, flushWordRun]

theorem rdaAux_noWs {buf l : List Char}
    (hb : ∀ c ∈ buf, isWsChar c = false) (hl : ∀ c ∈ l, isWsChar c = false) :
    ∀ c ∈ removeDescriptorsAux buf l, isWsChar c = false := by
  induction l generalizing buf with
  | nil =>
    intro c hc
    rcases flushWordRun_sublist buf with h | h <;> rw [removeDescriptorsAux, h] at hc
    · simp at hc
    · exact hb c hc
  | cons a l ih =>
    intro c hc
    have ha : isWsChar a = false := hl a (by simp)
    have hl' : ∀ c ∈ l, isWsChar c = false := fun c hc => hl c (by simp [hc])
    rw [removeDescriptorsAux] at hc
    by_cases hw : isWordChar a
    · rw [if_pos hw] at hc
      exact @ih (buf ++ [a])
        (fun c hc => by
          rcases List.mem_append.1 hc with h | h
          · exact hb c h
          · simp at h; subst h; exact ha) hl' c hc
    · rw [if_neg hw] at hc
      rcases List.mem_append.1 hc with h | h
      · rcases flushWordRun_sublist buf with hf | hf <;> rw [hf] at h
        · simp at h
        · exact hb c h
      · rcases List.mem_cons.1 h with h | h
        · subst h; exact ha
        · exact @ih [] (by simp) hl' c h

/-- Splitting `removeDescriptorsAux` at a non-word character. -/
theorem rdaAux_append_nonword {w : Char} (hw : isWordChar w = false) :
    ∀ (t : List Char) (buf rest : List Char),
      removeDescriptorsAux buf (t ++ w :: rest) =
        removeDescriptorsAux buf t ++ w :: removeDescriptorsAux [] rest := by
  intro t
  induction t with
  | nil => intro buf rest; simp [removeDescriptorsAux, hw]
  | cons a t ih =>
    intro buf rest
    by_cases ha : isWordChar a
    · simp only [List.cons_append, removeDescriptorsAux, if_pos ha]
      exact ih (buf ++ [a]) rest
    · simp only [List.cons_append, removeDescriptorsAux, if_neg ha, List.append_eq]
      rw [ih [] rest]
      simp

/-- `wsTokensAux` on a whitespace-free suffix. -/
theorem wsTokensAux_noWs {t : List Char} (ht : ∀ c ∈ t, isWsChar c = false) :
    ∀ buf, wsTokensAux buf t = if buf ++ t = [] then [] else [buf ++ t] := by
  induction t with
  | nil => intro buf; simp [wsTokensAux]
  | cons a t ih =>
    intro buf
    have ha : isWsChar a = false := ht a (by simp)
    rw [wsTokensAux, if_neg (by simp [ha])]
    rw [ih (fun c hc => ht c (by simp [hc])) (buf ++ [a])]
    simp

/-- Splitting `wsTokensAux` at a whitespace character following a
whitespace-free prefix. -/
theorem wsTokensAux_append_ws {w : Char} (hw : isWsChar w = true) :
    ∀ (t : List Char), (∀ c ∈ t, isWsChar c = false) →
      ∀ (buf rest : List Char),
        wsTokensAux buf (t ++ w :: rest) =
          (if buf ++ t = [] then [] else [buf ++ t]) ++ wsTokensAux [] rest := by
  intro t
  induction t with
  | nil =>
    intro _ buf rest
    simp [wsTokensAux, hw]
  | cons a t ih =>
    intro ht buf rest
    have ha : isWsChar a = false := ht a (by simp)
    rw [List.cons_append, wsTokensAux, if_neg (by simp [ha])]
    rw [ih (fun c hc => ht c (by simp [hc])) (buf ++ [a]) rest]
    simp

/-- Descriptor removal commutes with whitespace tokenisation: the tokens
of the stripped string are the non-empty strippings of the tokens.  The
generalised statement carries the tokeniser's pending token `B` and the
descriptor remover's state as emitted output `O` plus pending word-run
`b`, linked by the continuation equation `hOb`. -/
theorem tokens_rdaAux (m : List Char) :
    ∀ (B O b : List Char),
      (∀ u, removeDescriptorsAux [] (B ++ u) = O ++ removeDescriptorsAux b u) →
      (∀ c ∈ B, isWsChar c = false) →
      wsTokens (O ++ removeDescriptorsAux b m) =
        ((wsTokensAux B m).map (removeDescriptorsAux [])).filter (fun t => t ≠ []) := by
  induction m with
  | nil =>
    intro B O b hOb hB
    have hrdB : removeDescriptorsAux [] B = O ++ flushWordRun b := by
      have := hOb []
      simpa [removeDescriptorsAux] using this
    rw [removeDescriptorsAux, ← hrdB]
    by_cases hBnil : B = []
    · subst hBnil
      rw [rdaAux_nil_nil]
      simp [wsTokensAux, wsTokens]
    · have hnoWs : ∀ c ∈ removeDescriptorsAux [] B, isWsChar c = false :=
        rdaAux_noWs (by simp) hB
      rw [wsTokens, wsTokensAux_noWs hnoWs []]
      rw [wsTokensAux, if_neg hBnil]
      by_cases hrd : removeDescriptorsAux [] B = [] <;> simp [hrd]
  | cons c cs ih =>
    intro B O b hOb hB
    by_cases hws : isWsChar c = true
    · have hword : isWordChar c = false := isWsChar_not_word hws
      have hstep : removeDescriptorsAux b (c :: cs) =
          flushWordRun b ++ c :: removeDescriptorsAux [] cs := by
        rw [removeDescriptorsAux, if_neg (by simp [hword])]
      have hrdB : removeDescriptorsAux [] B = O ++ flushWordRun b := by
        have := hOb []
        simpa [removeDescriptorsAux] using this
      have hnoWs : ∀ x ∈ removeDescriptorsAux [] B, isWsChar x = false :=
        rdaAux_noWs (by simp) hB
      rw [hstep, ← List.append_assoc, ← hrdB]
      rw [wsTokens, wsTokensAux_append_ws hws _ hnoWs [] _]
      have ihz := ih [] [] [] (by simp) (by simp)
      rw [wsTokens] at ihz
      simp only [List.nil_append] at ihz
      rw [wsTokensAux, if_pos hws]
      rw [List.map_append, List.filter_append, ihz]
      congr 1
      by_cases hBnil : B = []
      · subst hBnil
        simp [rdaAux_nil_nil]
      · rw [if_neg hBnil]
        by_cases hrd : removeDescriptorsAux [] B = [] <;> simp [hrd]
    · have hws' : isWsChar c = false := by simpa using hws
      rw [wsTokens, wsTokensAux, if_neg (by simp [hws'])]
      have hB' : ∀ x ∈ B ++ [c], isWsChar x = false := by
        intro x hx
        rcases List.mem_append.1 hx with h | h
        · exact hB x h
        · simp at h; subst h; exact hws'
      by_cases hword : isWordChar c
      · have hstep : removeDescriptorsAux b (c :: cs) = removeDescriptorsAux (b ++ [c]) cs := by
          rw [removeDescriptorsAux, if_pos hword]
        rw [hstep]
        have := ih (B ++ [c]) O (b ++ [c])
          (fun u => by
            have := hOb (c :: u)
            rw [removeDescriptorsAux, if_pos hword] at this
            simpa using this) hB'
        rw [wsTokens] at this
        exact this
      · have hstep : removeDescriptorsAux b (c :: cs) =
            flushWordRun b ++ c :: removeDescriptorsAux [] cs := by
          rw [removeDescriptorsAux, if_neg hword]
        rw [hstep, ← List.append_assoc]
        have := ih (B ++ [c]) (O ++ flushWordRun b ++ [c]) []
          (fun u => by
            have h1 := hOb (c :: u)
            rw [removeDescriptorsAux, if_neg hword] at h1
            simpa using h1) hB'
        rw [wsTokens] at this
        simpa using this

theorem tokens_removeDescriptors (m : List Char) :
    wsTokens (removeDescriptors m) =
      ((wsTokens m).map (removeDescriptorsAux [])).filter (fun t => t ≠ []) := by
  have := tokens_rdaAux m [] [] [] (fun u => by simp) (by simp)
  simpa [removeDescriptors, wsTokens] using this

theorem length_dropWhile_le_fp (p : Char → Bool) (l : List Char) :
    (l.dropWhile p).length ≤ l.length := by
  induction l with
  | nil => simp [List.dropWhile]
  | cons a l ih =>
    rw [List.dropWhile_cons]
    by_cases h : p a
    · simp [h]; omega
    · simp [h]

theorem collapseWsAux_cons_eq (f : Bool) (a : Char) (cs : List Char) :
    collapseWsAux f (a :: cs) =
      if isWsChar a then (if f then [] else [' ']) ++ collapseWsAux true cs
      else a :: collapseWsAux false cs := rfl

theorem wsTokensAux_cons_eq (buf : List Char) (a : Char) (cs : List Char) :
    wsTokensAux buf (a :: cs) =
      if isWsChar a then (if buf = [] then [] else [buf]) ++ wsTokensAux [] cs
      else wsTokensAux (buf ++ [a]) cs := rfl

theorem collapseWsAux_true_eq (cs : List Char) :
    collapseWsAux true cs = collapseWsAux false (cs.dropWhile isWsChar) := by
  induction cs with
  | nil => simp [collapseWsAux, List.dropWhile]
  | cons a cs ih =>
    by_cases h : isWsChar a
    · rw [collapseWsAux_cons_eq, if_pos h, if_pos rfl, List.dropWhile_cons, if_pos h, ih]
      simp
    · rw [collapseWsAux_cons_eq, if_neg h, List.dropWhile_cons, if_neg h,
        collapseWsAux_cons_eq, if_neg h]

theorem trimWsList_cons_ws {a : Char} (h : isWsChar a = true) (X : List Char) :
    trimWsList (a :: X) = trimWsList X := by
  rw [trimWsList, trimWsList, List.dropWhile_cons, if_pos h]

theorem wsTokens_dropWhile_ws (cs : List Char) :
    wsTokens (cs.dropWhile isWsChar) = wsTokens cs := by
  induction cs with
  | nil => rfl
  | cons a cs ih =>
    by_cases h : isWsChar a
    · rw [List.dropWhile_cons, if_pos h, ih]
      conv_rhs => rw [wsTokens, wsTokensAux_cons_eq]
      rw [if_pos h]
      simp [wsTokens]
    · rw [List.dropWhile_cons, if_neg h]

theorem head_dropWhile_false {p : Char → Bool} :
    ∀ {l : List Char} {w : Char} {rest : List Char},
      l.dropWhile p = w :: rest → p w = false := by
  intro l
  induction l with
  | nil => intro w rest h; simp [List.dropWhile] at h
  | cons a l ih =>
    intro w rest h
    rw [List.dropWhile_cons] at h
    by_cases hp : p a
    · rw [if_pos hp] at h; exact ih h
    · rw [if_neg hp] at h
      cases h
      simpa using hp

theorem collapseWs_append_noWs :
    ∀ {t : List Char}, (∀ c ∈ t, isWsChar c = false) →
      ∀ r, collapseWsAux false (t ++ r) = t ++ collapseWsAux false r := by
  intro t
  induction t with
  | nil => intro _ r; simp
  | cons a t ih =>
    intro ht r
    have ha : isWsChar a = false := ht a (by simp)
    rw [List.cons_append, collapseWsAux_cons_eq, if_neg (by simp [ha])]
    rw [ih (fun c hc => ht c (by simp [hc])) r]
    rfl

theorem dropWhile_ws_noWs {t : List Char} (ht : ∀ c ∈ t, isWsChar c = false) :
    t.dropWhile isWsChar = t := by
  cases t with
  | nil => rfl
  | cons a t => rw [List.dropWhile_cons, if_neg (by simp [ht a (by simp)])]

theorem trimWsList_noWs {t : List Char} (ht : ∀ c ∈ t, isWsChar c = false) :
    trimWsList t = t := by
  have hr : ∀ c ∈ t.reverse, isWsChar c = false := fun c hc => ht c (List.mem_reverse.1 hc)
  rw [trimWsList, dropWhile_ws_noWs ht, dropWhile_ws_noWs hr, List.reverse_reverse]

theorem dropWhile_ws_reverse_ne_nil {Y : List Char} {x : Char} {Y0 : List Char}
    (hY : Y = x :: Y0) (hx : isWsChar x = false) :
    ¬ (Y.reverse.dropWhile isWsChar = []) := by
  intro hcon
  have hxmem : x ∈ Y.reverse := by simp [hY]
  have hall : ∀ c ∈ Y.reverse, isWsChar c = true := by
    intro c hc
    by_contra hcf
    have hsplit := List.takeWhile_append_dropWhile (p := isWsChar) (l := Y.reverse)
    rw [hcon, List.append_nil] at hsplit
    rw [← hsplit] at hc
    exact hcf (List.mem_takeWhile_imp hc)
  have := hall x hxmem
  rw [hx] at this
  exact Bool.false_ne_true this

/-- Trimming `token ++ " " ++ Y` when `Y` starts with a non-whitespace
character: the trailing trim happens entirely inside `Y`. -/
theorem trimWsList_token_space {t Y : List Char} {a x : Char} {t0 Y0 : List Char}
    (htc : t = a :: t0) (ha : isWsChar a = false)
    (hYc : Y = x :: Y0) (hx : isWsChar x = false) :
    trimWsList (t ++ ' ' :: Y) = t ++ ' ' :: trimWsList Y := by
  have hne : ¬ (Y.reverse.dropWhile isWsChar = []) := dropWhile_ws_reverse_ne_nil hYc hx
  have hYdrop : Y.dropWhile isWsChar = Y := by
    rw [hYc, List.dropWhile_cons, if_neg (by simp [hx])]
  rw [trimWsList, trimWsList, hYdrop]
  have hleft : (t ++ ' ' :: Y).dropWhile isWsChar = t ++ ' ' :: Y := by
    rw [htc, List.cons_append, List.dropWhile_cons, if_neg (by simp [ha])]
  rw [hleft]
  rw [List.reverse_append, List.reverse_cons, List.append_assoc]
  rw [List.dropWhile_append]
  rw [if_neg (by simpa [List.isEmpty_iff] using hne)]
  simp

theorem trimWsList_token_trailing_space {t : List Char} {a : Char} {t0 : List Char}
    (htc : t = a :: t0) (ht : ∀ c ∈ t, isWsChar c = false) :
    trimWsList (t ++ [' ']) = t := by
  have hsp : isWsChar ' ' = true := by decide
  have hleft : (t ++ [' ']).dropWhile isWsChar = t ++ [' '] := by
    rw [htc, List.cons_append, List.dropWhile_cons, if_neg (by simp [ht a (by simp [htc])])]
  rw [trimWsList, hleft, List.reverse_append]
  have hstep : (([' '] : List Char).reverse ++ t.reverse).dropWhile isWsChar =
      t.reverse.dropWhile isWsChar := by
    simp [List.dropWhile_cons, hsp]
  rw [hstep, dropWhile_ws_noWs (fun c hc => ht c (List.mem_reverse.1 hc)), List.reverse_reverse]

theorem wsTokensAux_ne_nil :
    ∀ (l buf : List Char), buf ≠ [] → wsTokensAux buf l ≠ [] := by
  intro l
  induction l with
  | nil => intro buf hb; simp [wsTokensAux, hb]
  | cons a l ih =>
    intro buf hb
    by_cases h : isWsChar a
    · rw [wsTokensAux_cons_eq, if_pos h, if_neg hb]
      simp
    · rw [wsTokensAux_cons_eq, if_neg h]
      exact ih (buf ++ [a]) (by simp)

/-- `replace(/\s+/g, ' ').trim()` joins the whitespace tokens with
single spaces. -/
theorem trim_collapse_eq_tokens (m : List Char) :
    trimWsList (collapseWs m) = List.intercalate [' '] (wsTokens m) := by
  suffices h : ∀ (k : Nat) (m : List Char), m.length ≤ k →
      trimWsList (collapseWs m) = List.intercalate [' '] (wsTokens m) from
    h m.length m le_rfl
  intro k
  induction k with
  | zero =>
    intro m hm
    have : m = [] := List.eq_nil_of_length_eq_zero (Nat.le_zero.1 hm)
    subst this
    rfl
  | succ k ih =>
    intro m hm
    match m with
    | [] => rfl
    | a :: l =>
      by_cases ha : isWsChar a
      · -- leading whitespace: one space is emitted and then trimmed away
        have h1 : collapseWs (a :: l) = ' ' :: collapseWsAux true l := by
          rw [collapseWs, collapseWsAux_cons_eq, if_pos ha]
          simp
        rw [h1, collapseWsAux_true_eq, trimWsList_cons_ws (by decide)]
        have hlen : (l.dropWhile isWsChar).length ≤ k := by
          have := length_dropWhile_le_fp isWsChar l
          simp at hm
          omega
        rw [show collapseWsAux false (l.dropWhile isWsChar) =
              collapseWs (l.dropWhile isWsChar) from rfl]
        rw [ih (l.dropWhile isWsChar) hlen, wsTokens_dropWhile_ws]
        conv_rhs => rw [wsTokens, wsTokensAux_cons_eq]
        rw [if_pos ha]
        simp [wsTokens]
      · -- a token runs until the next whitespace character
        obtain ⟨t, ht_eq⟩ : ∃ t, (a :: l).takeWhile (fun c => !isWsChar c) = t := ⟨_, rfl⟩
        obtain ⟨r, hr_eq⟩ : ∃ r, (a :: l).dropWhile (fun c => !isWsChar c) = r := ⟨_, rfl⟩
        have hsplit : t ++ r = a :: l := by
          rw [← ht_eq, ← hr_eq]
          exact List.takeWhile_append_dropWhile _ _
        have htc : t = a :: l.takeWhile (fun c => !isWsChar c) := by
          rw [← ht_eq, List.takeWhile_cons, if_pos (by simp [ha])]
        have ht : ∀ c ∈ t, isWsChar c = false := by
          intro c hc
          rw [← ht_eq] at hc
          simpa using List.mem_takeWhile_imp hc
        have htok : wsTokens t = [t] := by
          rw [wsTokens, wsTokensAux_noWs ht []]
          simp [htc]
        rw [← hsplit]
        rcases r with _ | ⟨w, r'⟩
        · rw [List.append_nil]
          have hct : collapseWsAux false t = t := by
            have := collapseWs_append_noWs ht []
            simpa [show collapseWsAux false ([] : List Char) = [] from rfl] using this
          rw [collapseWs, hct, trimWsList_noWs ht, htok]
          simp [List.intercalate]
        · have hw : isWsChar w = true := by
            have := head_dropWhile_false (p := fun c => !isWsChar c) hr_eq
            simpa using this
          rw [collapseWs, collapseWs_append_noWs ht, collapseWsAux_cons_eq, if_pos hw]
          simp only [Bool.false_eq_true, if_false]
          rw [collapseWsAux_true_eq]
          obtain ⟨d, hd_eq⟩ : ∃ d, r'.dropWhile isWsChar = d := ⟨_, rfl⟩
          rw [hd_eq]
          have hlen : d.length ≤ k := by
            have h1 := length_dropWhile_le_fp isWsChar r'
            rw [hd_eq] at h1
            have h2 : t.length + (w :: r').length = (a :: l).length :=
              congrArg List.length hsplit ▸ by rw [← List.length_append]
            have h3 : 1 ≤ t.length := by rw [htc]; simp
            simp only [List.length_cons] at h2 hm
            omega
          have hJ := ih d hlen
          rw [wsTokens, wsTokensAux_append_ws hw t ht [] r']
          simp only [List.nil_append]
          rw [if_neg (by rw [htc]; simp)]
          have htokr : wsTokensAux [] r' = wsTokens d := by
            rw [← hd_eq, wsTokens_dropWhile_ws]
            rfl
          rw [htokr]
          rcases d with _ | ⟨x, d'⟩
          · rw [show collapseWsAux false ([] : List Char) = [] from rfl]
            simp only [List.singleton_append, List.append_nil]
            rw [trimWsList_token_trailing_space htc ht]
            simp [wsTokens, wsTokensAux, List.intercalate]
          · have hx : isWsChar x = false := head_dropWhile_false (p := isWsChar) hd_eq
            have hcoll : collapseWsAux false (x :: d') = x :: collapseWsAux false d' := by
              rw [collapseWsAux_cons_eq, if_neg (by simp [hx])]
            rw [hcoll]
            simp only [List.singleton_append]
            rw [trimWsList_token_space htc (by simpa using ha) rfl hx]
            rw [← hcoll]
            rw [show collapseWsAux false (x :: d') = collapseWs (x :: d') from rfl]
            rw [hJ]
            have htne : wsTokens (x :: d') ≠ [] := by
              rw [wsTokens, wsTokensAux_cons_eq, if_neg (by simp [hx])]
              exact wsTokensAux_ne_nil d' ([] ++ [x]) (by simp)
            rcases htoks : wsTokens (x :: d') with _ | ⟨y, ys⟩
            · exact absurd htoks htne
            · have hic : List.intercalate [' '] (t :: y :: ys) =
                  t ++ [' '] ++ List.intercalate [' '] (y :: ys) := by
                simp [List.intercalate, List.intersperse]
              rw [hic]
              simp
theorem cleanedName_eq_tokens (l : List Char) :
    cleanedName l =
      List.intercalate [' ']
        (((wsTokens (lowerList l)).map (removeDescriptorsAux [])).filter (fun t => t ≠ [])) := by
  rw [cleanedName, collapseWs] at *
  rw [show trimWsList (collapseWsAux false (removeDescriptors (lowerList l))) =
        trimWsList (collapseWs (removeDescriptors (lowerList l))) from rfl]
  rw [trim_collapse_eq_tokens, tokens_removeDescriptors]

/-! ## parseIngredient (src/index.js lines 171-191)

```js
function parseIngredient(ingredientStr) {
  const measurementPattern = /^(\d+(?:\/\d+)?(?:\.\d+)?)\s*(cup|cups|...|bunches)?\s*(.+?)(?:,\s*(.+))?$/i;
  const match = ingredientStr.match(measurementPattern);
  if (match) {
    return { amount: parseFloat(match[1]), unit: match[2] || 'unit',
             name: match[3].trim(), preparation: match[4] || null };
  }
  return { amount: null, unit: null, name: ingredientStr.trim(), preparation: null };
}
```

The pattern is anchored and deterministic given the JS backtracking
order, which the functions below reproduce choice point by choice
point: greedy `\d+` tries the longest digit run first; each optional
group tries its present alternative (with its own internal
backtracking) before the absent one; `\s*` tries the longest whitespace
run first; the unit alternation is tried in source order; the lazy
`(.+?)` tries the shortest name first; the final optional
`(?:,\s*(.+))?` is tried present-first and `$` requires the end of the
input.  `firstSome` returns the first successful candidate, which is
exactly the backtracking search. -/

def unitWords : List String :=
  ["cup", "cups", "tablespoon", "tablespoons", "tbsp", "teaspoon", "teaspoons",
   "tsp", "pound", "pounds", "lb", "lbs", "ounce", "ounces", "oz", "gram",
   "grams", "g", "kilogram", "kilograms", "kg", "liter", "liters", "l",
   "milliliter", "milliliters", "ml", "piece", "pieces", "clove", "cloves",
   "can", "cans", "package", "packages", "bunch", "bunches"]

def firstSome {α β : Type} (f : α → Option β) : List α → Option β
  | [] => none
  | a :: as =>
    match f a with
    | some b => some b
    | none => firstSome f as

/-- `[n, n-1, ..., 1]`: candidate lengths for a greedy `+` repetition. -/
def countdown : Nat → List Nat
  | 0 => []
  | n + 1 => (n + 1) :: countdown n

/-- `[n, n-1, ..., 1, 0]`: candidate lengths for a greedy `*` repetition. -/
def countdownZero (n : Nat) : List Nat := countdown n ++ [0]

/-- `[1, 2, ..., n]`: candidate lengths for a lazy `+?` repetition. -/
def countup (n : Nat) : List Nat := (List.range n).map (· + 1)

/-- The four capture groups of the measurement pattern. -/
structure MeasCaps where
  amount : List Char
  unit : Option (List Char)
  name : List Char
  preparation : Option (List Char)
deriving DecidableEq

/-- `(?:,\s*(.+))?$`. -/
def measTail (g1 : List Char) (unit : Option (List Char)) (name rest : List Char) :
    Option MeasCaps :=
  let present :=
    match rest with
    | ',' :: r2 =>
      let w := r2.takeWhile isWsChar
      firstSome (fun j =>
        let r3 := r2.drop j
        if !r3.isEmpty && r3.all dotChar then some ⟨g1, unit, name, some r3⟩ else none)
        (countdownZero w.length)
    | _ => none
  match present with
  | some caps => some caps
  | none => if rest = [] then some ⟨g1, unit, name, none⟩ else none

/-- `(.+?)`: lazy, at least one `.`-matchable character. -/
def measName (g1 : List Char) (unit : Option (List Char)) (rest : List Char) :
    Option MeasCaps :=
  firstSome (fun n =>
    if (rest.take n).all dotChar then measTail g1 unit (rest.take n) (rest.drop n)
    else none)
    (countup rest.length)

/-- the second `\s*`. -/
def measWs2 (g1 : List Char) (unit : Option (List Char)) (rest : List Char) :
    Option MeasCaps :=
  firstSome (fun j => measName g1 unit (rest.drop j))
    (countdownZero (rest.takeWhile isWsChar).length)

/-- `(cup|cups|...|bunches)?` with the `/i` flag: alternatives in source
order before the absent case; the capture keeps the original text. -/
def measUnit (g1 : List Char) (rest : List Char) : Option MeasCaps :=
  let alt := firstSome (fun u =>
    if lowerList (rest.take u.length) = u.data then
      measWs2 g1 (some (rest.take u.length)) (rest.drop u.length)
    else none) unitWords
  match alt with
  | some caps => some caps
  | none => measWs2 g1 none rest

/-- the first `\s*`. -/
def measWs1 (g1 : List Char) (rest : List Char) : Option MeasCaps :=
  firstSome (fun j => measUnit g1 (rest.drop j))
    (countdownZero (rest.takeWhile isWsChar).length)

/-- `(?:\.\d+)?`, present-first, inner `\d+` greedy. -/
def measDec (g1 : List Char) (rest : List Char) : Option MeasCaps :=
  let present :=
    match rest with
    | '.' :: r2 =>
      let d := r2.takeWhile isDigitChar
      firstSome (fun k => measWs1 (g1 ++ '.' :: d.take k) (r2.drop k)) (countdown d.length)
    | _ => none
  match present with
  | some caps => some caps
  | none => measWs1 g1 rest

/-- `(?:\/\d+)?`, present-first, inner `\d+` greedy. -/
def measFrac (g1 : List Char) (rest : List Char) : Option MeasCaps :=
  let present :=
    match rest with
    | '/' :: r2 =>
      let d := r2.takeWhile isDigitChar
      firstSome (fun k => measDec (g1 ++ '/' :: d.take k) (r2.drop k)) (countdown d.length)
    | _ => none
  match present with
  | some caps => some caps
  | none => measDec g1 rest

/-- `^(\d+...)`: the match must start with a digit run, longest first. -/
def matchMeasurement (s : List Char) : Option MeasCaps :=
  let d := s.takeWhile isDigitChar
  firstSome (fun k => measFrac (d.take k) (s.drop k)) (countdown d.length)

def digitsToNat (l : List Char) : Nat :=
  l.foldl (fun acc c => acc * 10 + (c.toNat - '0'.toNat)) 0

/-- `parseFloat` on the strings capture group 1 can produce (`\d+`,
optionally `/\d+`, optionally `.\d+`): the leading digit run and, when a
decimal point immediately follows it, the fraction digits; a `/...`
suffix is trailing junk that `parseFloat` ignores.  The value is kept
exact in `ℚ`; no claim depends on the IEEE rounding of the JS number. -/
def parseFloatCap (l : List Char) : ℚ :=
  let intPart := l.takeWhile isDigitChar
  let rest := l.dropWhile isDigitChar
  match rest with
  | '.' :: r2 =>
    let frac := r2.takeWhile isDigitChar
    (digitsToNat intPart : ℚ) + (digitsToNat frac : ℚ) / ((10 : ℚ) ^ frac.length)
  | _ => (digitsToNat intPart : ℚ)

structure ParsedIngredient where
  amount : Option ℚ
  unit : Option String
  name : String
  preparation : Option String
deriving DecidableEq

def parseIngredient (ingredientStr : String) : ParsedIngredient :=
  match matchMeasurement ingredientStr.data with
  | some m =>
    { amount := some (parseFloatCap m.amount)
      unit := some (match m.unit with
        | some u => String.mk u
        | none => "unit")
      name := jsTrim (String.mk m.name)
      preparation := m.preparation.map String.mk }
  | none =>
    { amount := none, unit := none, name := jsTrim ingredientStr, preparation := none }

/-! ## Relational state

One list per PostgreSQL table, one structure per row.  `SERIAL` primary
keys are modelled by the explicit sequences `nextRecipeId` /
`nextIngredientId`.  `recipe_views` carries the `UNIQUE(recipe_id,
device_id)` constraint semantically through the upsert operations; the
uniqueness itself is stated and proved as an invariant, not baked into
the representation.  Timestamps (`viewed_at`, `created_at`) are not
modelled: no claim depends on them. -/

structure Recipe where
  id : Nat
  title : String
  cuisine : String
  servings : Int
  prep_time : Int
  cook_time : Int
  difficulty : String
  source : String
  average_rating : ℚ
  rating_count : Nat
  saved_by_count : Nat
  submitted_by : Option String
deriving DecidableEq

structure Ingredient where
  id : Nat
  name : String
  category : String
deriving DecidableEq

structure RecipeIngredientRow where
  recipe_id : Nat
  ingredient_id : Nat
  amount : ℚ
  unit : String
  is_required : Bool
deriving DecidableEq

structure InstructionRow where
  recipe_id : Nat
  step_number : Nat
  instruction : String
deriving DecidableEq

structure NutritionRow where
  recipe_id : Nat
  calories : ℚ
  protein : ℚ
  carbs : ℚ
  fat : ℚ
  fiber : ℚ
deriving DecidableEq

structure ViewRow where
  recipe_id : Nat
  device_id : String
  rating : Option Nat
deriving DecidableEq

structure UsageRow where
  recipe_id : Nat
  device_id : String
  rating : Nat
deriving DecidableEq

structure SavedRow where
  recipe_id : Nat
  device_id : String
  rating : Nat
deriving DecidableEq

structure DB where
  recipes : List Recipe
  ingredients : List Ingredient
  recipe_ingredients : List RecipeIngredientRow
  recipe_instructions : List InstructionRow
  recipe_nutrition : List NutritionRow
  recipe_views : List ViewRow
  recipe_usage : List UsageRow
  user_saved_recipes : List SavedRow
  nextRecipeId : Nat
  nextIngredientId : Nat
deriving DecidableEq

/-! ## Exclusion resolver (src/index.js lines 284-315)

`if (deviceId)` is JS truthiness: both an absent and an empty-string
device identifier skip the exclusion queries, leaving
`excludedRecipeIds = []`.  The `.filter(id => !isNaN(id))` of the source
is a no-op here because recipe identifiers are natural numbers. -/

def viewedRecipeIds (db : DB) (d : String) : List Nat :=
  ((db.recipe_views.filter (fun v => decide (v.device_id = d))).map
    (fun v => v.recipe_id)).dedup

def submittedRecipeIds (db : DB) (d : String) : List Nat :=
  ((db.recipes.filter (fun r => decide (r.submitted_by = some d))).map
    (fun r => r.id)).dedup

def excludedRecipeIds (db : DB) (deviceId : Option String) : List Nat :=
  match deviceId with
  | none => []
  | some d => if d = "" then [] else viewedRecipeIds db d ++ submittedRecipeIds db d

/-! ## Matcher (src/index.js lines 317-390, V7.5 exact match)

The CTE joins `recipes → recipe_ingredients → ingredients`, counts
`COUNT(DISTINCT i.id)` as `total_ingredients` and
`COUNT(DISTINCT i.id) FILTER (LOWER(i.name) = ANY(coreIngredients))` as
`matched_ingredients`, keeps rows with
`total_ingredients = matched_ingredients = |coreIngredients|`, orders by
`average_rating DESC, rating_count DESC` and takes one row.  SQL leaves
the order of fully tied rows unspecified; the fold keeps the first of
the tied maxima, which is one legal execution. -/

def queryCoreIngredients (ingredients : List String) : List String :=
  ingredients.map (fun ing => getCoreIngredient (lowerStr ing))

def joinedIngredients (db : DB) (rid : Nat) : List Ingredient :=
  db.ingredients.filter (fun i =>
    db.recipe_ingredients.any (fun ri =>
      decide (ri.recipe_id = rid) && decide (ri.ingredient_id = i.id)))

def totalIngredients (db : DB) (rid : Nat) : Nat :=
  (((joinedIngredients db rid).map (fun i => i.id)).dedup).length

def matchedIngredients (db : DB) (core : List String) (rid : Nat) : Nat :=
  ((((joinedIngredients db rid).filter
      (fun i => core.contains (lowerStr i.name))).map (fun i => i.id)).dedup).length

def qualifies (db : DB) (core : List String) (excl : List Nat) (r : Recipe) : Bool :=
  !(excl.contains r.id)
    && totalIngredients db r.id == core.length
    && matchedIngredients db core r.id == core.length
    && totalIngredients db r.id == matchedIngredients db core r.id

def betterRecipe (x b : Recipe) : Bool :=
  decide (b.average_rating < x.average_rating)
    || (decide (x.average_rating = b.average_rating)
        && decide (b.rating_count < x.rating_count))

def selectStep (acc : Option Recipe) (r : Recipe) : Option Recipe :=
  match acc with
  | none => some r
  | some b => if betterRecipe r b then some r else some b

def selectBest (rs : List Recipe) : Option Recipe :=
  rs.foldl selectStep none

def matchCandidates (db : DB) (core : List String) (excl : List Nat) : List Recipe :=
  db.recipes.filter (qualifies db core excl)

def matchDB (db : DB) (core : List String) (excl : List Nat) : Option Recipe :=
  selectBest (matchCandidates db core excl)

/-- `INSERT INTO recipe_views (recipe_id, device_id) VALUES ($1,$2)
ON CONFLICT DO NOTHING` (src/index.js lines 663-684). -/
def recordView (db : DB) (rid : Nat) (d : String) : DB :=
  if db.recipe_views.any (fun v =>
      decide (v.recipe_id = rid) && decide (v.device_id = d)) then db
  else { db with recipe_views := db.recipe_views ++ [⟨rid, d, none⟩] }

/-! ## AI generation fallback (src/index.js lines 392-639)

The two Gemini calls are external collaborators; each call's outcome is
one of: the axios promise rejected (`threw`: timeout, transport failure
or non-2xx status), a 2xx response without `candidates[0]`
(`noCandidates`), or a 2xx response with generated text whose
code-fence-stripped `JSON.parse` result is carried as `Option GenRecipe`
(`text (some r)` parse success, `text none` parse failure).  Generator
ingredient lines are modelled as strings (the shape the prompt demands
and the only shape the string-identity branch of the response formatting
touches); the ad-hoc object-to-string coercion for object-shaped lines
is response shaping no claim depends on. -/

structure GenNutrition where
  calories : ℚ
  protein : String
  carbs : String
  fat : String
  fiber : String
deriving DecidableEq

def placeholderNutrition : GenNutrition :=
  { calories := 350, protein := "25g", carbs := "40g", fat := "12g", fiber := "5g" }

structure GenRecipe where
  title : String
  description : String
  ingredients : Option (List String)
  instructions : List String
  prepTime : String
  cookTime : String
  servings : String
  difficulty : String
  cuisine : String
  nutrition : Option GenNutrition
deriving DecidableEq

def jsOrString (o : Option String) (d : String) : String :=
  match o with
  | some s => if s = "" then d else s
  | none => d

/-- The synthetic recipe Stage 1 falls back to when its output does not
parse (src/index.js lines 488-505). -/
def syntheticStage1Recipe (ingredients : List String) (cuisine : Option String) :
    GenRecipe :=
  { title := "Quick Recipe"
    description := "A delicious dish made with your ingredients"
    ingredients := some (ingredients.map (fun ing => "Some " ++ ing))
    instructions := ["Prepare and cook ingredients as needed"]
    prepTime := "30 minutes"
    cookTime := "30 minutes"
    servings := "4"
    difficulty := "medium"
    cuisine := jsOrString cuisine "american"
    nutrition := some placeholderNutrition }

inductive StageOutcome where
  | threw
  | noCandidates
  | text (parsed : Option GenRecipe)
deriving DecidableEq

structure AiEnv where
  apiKeyConfigured : Bool
  stage1 : StageOutcome
  stage2 : StageOutcome
deriving DecidableEq

inductive MatchResponse where
  | badRequest (error : String)
  | serverError (error : String)
  | dbRecipe (r : Recipe)
  | aiRecipe (r : GenRecipe)
deriving DecidableEq

/-- The ingredient formatting pass before `res.json` (lines 595-623);
string entries are returned unchanged. -/
def formatIngredientLines (r : GenRecipe) : GenRecipe :=
  match r.ingredients with
  | some ings => { r with ingredients := some (ings.map (fun ing => ing)) }
  | none => r

/-- The AI branch of the match endpoint: Stage 1 must yield a draft
(parsed or synthetic); any thrown stage error lands in the
`catch (aiError)` block and answers 500; a Stage 2 response that lacks
candidates or does not parse leaves `finalRecipe = initialRecipe`. -/
def aiGenerate (ingredients : List String) (cuisine : Option String) (ai : AiEnv) :
    MatchResponse :=
  if !ai.apiKeyConfigured then .serverError "Recipe generation service not configured"
  else
    match ai.stage1 with
    | .threw => .serverError "Failed to generate recipe. Please try again."
    | .noCandidates => .serverError "Failed to generate recipe. Please try again."
    | .text p =>
      let initialRecipe :=
        match p with
        | some r => r
        | none => syntheticStage1Recipe ingredients cuisine
      match ai.stage2 with
      | .threw => .serverError "Failed to generate recipe. Please try again."
      | .noCandidates => .aiRecipe (formatIngredientLines initialRecipe)
      | .text p2 =>
        match p2 with
        | some r2 =>
          let withNutrition :=
            if r2.nutrition = none then { r2 with nutrition := some placeholderNutrition }
            else r2
          .aiRecipe (formatIngredientLines withNutrition)
        | none => .aiRecipe (formatIngredientLines initialRecipe)

/-! ## POST /api/recipes/match (src/index.js lines 262-717)

`ingredients = none` stands for an absent or non-array body field.  The
response cache is disabled in the source (lines 276-282), so no cache is
modelled.  On a database hit the view row is inserted before `res.json`;
the returned state `db'` therefore already contains it.  A view-insert
failure (swallowed at lines 677-681) is a store fault outside this
embedding, which models successful store operations. -/

structure MatchRequestBody where
  ingredients : Option (List String)
  dietary : Option String
  cuisine : Option String
  spicePacks : Option (List String)
  deviceId : Option String
deriving DecidableEq

def matchRequest (db : DB) (req : MatchRequestBody) (ai : AiEnv) :
    MatchResponse × DB :=
  match req.ingredients with
  | none => (.badRequest "Ingredients array required", db)
  | some ings =>
    if ings.isEmpty then (.badRequest "Ingredients array required", db)
    else
      match matchDB db (queryCoreIngredients ings) (excludedRecipeIds db req.deviceId) with
      | none => (aiGenerate ings req.cuisine ai, db)
      | some r =>
        (.dbRecipe r,
         match req.deviceId with
         | some d => if d = "" then db else recordView db r.id d
         | none => db)

/-! ## POST /api/recipes/:id/rate (src/index.js lines 1118-1173) -/

inductive RateResponse where
  | badRequest (error : String)
  | serverError (error : String)
  | success (message : String)
deriving DecidableEq

/-- `INSERT ... ON CONFLICT (recipe_id, device_id) DO UPDATE SET rating`:
the conflicting row keeps its key and gets the new rating. -/
def upsertRating (vs : List ViewRow) (rid : Nat) (d : String) (rating : Nat) :
    List ViewRow :=
  if vs.any (fun v => decide (v.recipe_id = rid) && decide (v.device_id = d)) then
    vs.map (fun v =>
      if v.recipe_id = rid ∧ v.device_id = d then { v with rating := some rating } else v)
  else vs ++ [⟨rid, d, some rating⟩]

def ratedRows (vs : List ViewRow) (rid : Nat) : List ViewRow :=
  vs.filter (fun v => decide (v.recipe_id = rid) && v.rating.isSome)

def ratingSum (rows : List ViewRow) : ℚ :=
  (rows.map (fun v => ((v.rating.getD 0 : Nat) : ℚ))).sum

/-- `SELECT COUNT(DISTINCT device_id), AVG(rating) FROM recipe_views
WHERE recipe_id = $1 AND rating IS NOT NULL`.  The division is only
evaluated on a nonempty row set in `rateRecipe` (the rating was just
upserted). -/
def ratingStats (vs : List ViewRow) (rid : Nat) : Nat × ℚ :=
  let rows := ratedRows vs rid
  (((rows.map (fun v => v.device_id)).dedup).length,
   ratingSum rows / (rows.length : ℚ))

def rateRecipe (db : DB) (id : Nat) (rating : Nat) (deviceId : Option String) :
    RateResponse × DB :=
  if rating < 1 || rating > 5 then
    (.badRequest "Rating must be between 1 and 5", db)
  else
    match deviceId with
    | none => (.badRequest "Device ID is required", db)
    | some d =>
      if d = "" then (.badRequest "Device ID is required", db)
      else if !(db.recipes.any (fun r => decide (r.id = id))) then
        -- recipe_views.recipe_id REFERENCES recipes(id): the insert for a
        -- missing recipe raises, the catch answers 500, nothing is written
        (.serverError "Internal server error", db)
      else
        let views' := upsertRating db.recipe_views id d rating
        let stats := ratingStats views' id
        let recipes' := db.recipes.map (fun r =>
          if r.id = id then
            { r with rating_count := stats.1, average_rating := stats.2 }
          else r)
        let recipes'' :=
          if rating = 5 then
            -- UPDATE recipes SET submitted_by = $1 WHERE id = $2 AND submitted_by IS NULL
            recipes'.map (fun r =>
              if r.id = id ∧ r.submitted_by = none then { r with submitted_by := some d }
              else r)
          else recipes'
        (.success ("Recipe rated " ++ toString rating ++ " stars"),
         { db with recipe_views := views', recipes := recipes'' })

/-! ## POST /api/recipes/save-favorite (src/index.js lines 720-921) -/

/-- `parseInt` with decimal digits: skip leading whitespace, optional
sign, then a nonempty digit prefix, ignoring trailing junk; otherwise
`NaN` (`none`).  The hexadecimal autodetection of `parseInt` is not
reachable from the payloads modelled here. -/
def parseIntJs (s : String) : Option Int :=
  let l := s.data.dropWhile isWsChar
  let signAndRest : Int × List Char :=
    match l with
    | '-' :: rest => (-1, rest)
    | '+' :: rest => (1, rest)
    | _ => (1, l)
  let ds := signAndRest.2.takeWhile isDigitChar
  if ds.isEmpty then none else some (signAndRest.1 * (digitsToNat ds : Int))

/-- The leftmost match of `/(\d+)\s*h/i` (resp. `m`): the first maximal
digit run followed by optional whitespace and the letter.  A match
attempt starting inside a digit run sees the same trailing context as
the full run, so scanning character by character reproduces the regex's
leftmost-match rule. -/
def findNumBefore (letter : Char) : List Char → Option Nat
  | [] => none
  | c :: cs =>
    if isDigitChar c then
      let run := c :: cs.takeWhile isDigitChar
      let rest := (cs.dropWhile isDigitChar).dropWhile isWsChar
      match rest with
      | x :: _ =>
        if x.toLower = letter then some (digitsToNat run) else findNumBefore letter cs
      | [] => findNumBefore letter cs
    else findNumBefore letter cs

/-- A `prepTime`/`cookTime` payload field: absent, a JSON number, or a
string. -/
inductive TimeField where
  | absent
  | num (n : Nat)
  | str (s : String)
deriving DecidableEq

/-- The `parseTime` closure of the save-favorite handler (lines
761-781): falsy input (absent, `0`, `""`) gives 30; a number is
returned as is; a string that trims to the canonical decimal form of
`parseInt`'s result is that number; otherwise the `(\d+)\s*h` and
`(\d+)\s*m` matches combine as hours and minutes, and a zero total
falls back to 30. -/
def parseTime : TimeField → Int
  | .absent => 30
  | .num n => if n = 0 then 30 else (n : Int)
  | .str s =>
    if s = "" then 30
    else
      let canonical : Option Int :=
        match parseIntJs s with
        | some n => if jsTrim s = toString n then some n else none
        | none => none
      match canonical with
      | some n => n
      | none =>
        let hours := (findNumBefore 'h' s.data).getD 0
        let minutes := (findNumBefore 'm' s.data).getD 0
        let total := hours * 60 + minutes
        if total = 0 then 30 else (total : Int)

/-- `parseFloat` on a string of digits and dots (what survives
`replace(/[^\d.]/g, '')`): leading digits, then an optional fraction
after the first dot; no leading digits and no `.digits` prefix is `NaN`. -/
def parseFloatPrefix (l : List Char) : ℚ :=
  let ip := l.takeWhile isDigitChar
  let rest := l.dropWhile isDigitChar
  match rest with
  | '.' :: r2 =>
    let frac := r2.takeWhile isDigitChar
    if ip.isEmpty && frac.isEmpty then 0
    else (digitsToNat ip : ℚ) + (digitsToNat frac : ℚ) / ((10 : ℚ) ^ frac.length)
  | _ => (digitsToNat ip : ℚ)

/-- `parseNutritionValue` (lines 858-862): falsy input gives 0, else the
input's text is stripped to digits and dots and `parseFloat`ed, `NaN`
becoming 0.  Numeric payload values are represented by their decimal
text (`val.toString()`). -/
def parseNutritionValue (val : Option String) : ℚ :=
  match val with
  | none => 0
  | some s =>
    if s = "" then 0
    else parseFloatPrefix (s.data.filter (fun c => isDigitChar c || c = '.'))

structure NutritionPayload where
  calories : Option String
  protein : Option String
  carbs : Option String
  fat : Option String
  fiber : Option String
deriving DecidableEq

/-- The recipe payload of the save-favorite request.  An absent title is
represented by `""` (the handler's `!recipe.title` truthiness check
rejects both).  `instructions` is modelled as a list; the handler's
extra branch wrapping a single non-array instruction is not exercised
by any claim. -/
structure RecipePayload where
  title : String
  cuisine : Option String
  servings : Option String
  prepTime : TimeField
  cookTime : TimeField
  difficulty : Option String
  ingredients : Option (List String)
  instructions : Option (List String)
  nutrition : Option NutritionPayload
deriving DecidableEq

structure SaveFavoriteBody where
  recipe : Option RecipePayload
  deviceId : Option String
  rating : Option Int
deriving DecidableEq

inductive SaveResponse where
  | badRequest (error : String)
  | success (message : String) (recipeId : Nat)
deriving DecidableEq

/-- `parseInt(recipe.servings) || 4`. -/
def servingsValue (o : Option String) : Int :=
  match o with
  | none => 4
  | some s =>
    match parseIntJs s with
    | none => 4
    | some n => if n = 0 then 4 else n

/-- `SELECT id FROM ingredients WHERE LOWER(name) = LOWER($1)`; rows
come back in insertion order in this embedding. -/
def findIngredientId (ings : List Ingredient) (core : String) : Option Nat :=
  (ings.find? (fun i => decide (lowerStr i.name = lowerStr core))).map (fun i => i.id)

/-- One iteration of the ingredient loop (lines 808-837): parse the
line, reduce to the core name, reuse or create the `ingredients` row,
then link it with `amount || 1` and `unit || 'unit'`. -/
def insertIngredientLine (db : DB) (rid : Nat) (ingredientStr : String) : DB :=
  let parsed := parseIngredient ingredientStr
  let core := getCoreIngredient parsed.name
  let found := findIngredientId db.ingredients core
  let iid := match found with
    | some i => i
    | none => db.nextIngredientId
  let db1 := match found with
    | some _ => db
    | none =>
      { db with
        ingredients := db.ingredients ++ [({ id := db.nextIngredientId, name := core, category := "other" } : Ingredient)]
        nextIngredientId := db.nextIngredientId + 1 }
  let amount := match parsed.amount with
    | some q => if q = 0 then 1 else q
    | none => 1
  let unit := match parsed.unit with
    | some u => if u = "" then "unit" else u
    | none => "unit"
  { db1 with
    recipe_ingredients := db1.recipe_ingredients ++
      [({ recipe_id := rid, ingredient_id := iid, amount := amount, unit := unit,
          is_required := true } : RecipeIngredientRow)] }

/-- `INSERT INTO user_saved_recipes ... ON CONFLICT (recipe_id,
device_id) DO UPDATE SET rating = $3, saved_at = CURRENT_TIMESTAMP`. -/
def upsertSaved (rows : List SavedRow) (rid : Nat) (d : String) (rating : Nat) :
    List SavedRow :=
  if rows.any (fun v => decide (v.recipe_id = rid) && decide (v.device_id = d)) then
    rows.map (fun v =>
      if v.recipe_id = rid ∧ v.device_id = d then { v with rating := rating } else v)
  else rows ++ [⟨rid, d, rating⟩]

def saveFavorite (db : DB) (req : SaveFavoriteBody) : SaveResponse × DB :=
  match req.recipe with
  | none => (.badRequest "Recipe title is required", db)
  | some recipe =>
    if recipe.title = "" then (.badRequest "Recipe title is required", db)
    else if req.rating ≠ some 5 then
      (.badRequest "Only 5-star recipes can be saved as favorites", db)
    else
      match db.recipes.find? (fun r => decide (r.title = recipe.title)) with
      | some existing =>
        -- existing title: UPDATE recipes SET rating_count = rating_count + 1,
        -- average_rating = ((average_rating * rating_count) + $1) / (rating_count + 1);
        -- no View/Rating Event is written on this path
        let recipes' := db.recipes.map (fun r =>
          if r.id = existing.id then
            { r with
              rating_count := r.rating_count + 1
              average_rating :=
                (r.average_rating * (r.rating_count : ℚ) + 5) / ((r.rating_count : ℚ) + 1) }
          else r)
        (.success "Recipe rating updated" existing.id, { db with recipes := recipes' })
      | none =>
        let rid := db.nextRecipeId
        let newRecipe : Recipe :=
          { id := rid
            title := recipe.title
            cuisine := jsOrString recipe.cuisine "american"
            servings := servingsValue recipe.servings
            prep_time := parseTime recipe.prepTime
            cook_time := parseTime recipe.cookTime
            difficulty := jsOrString recipe.difficulty "medium"
            source := "user_generated"
            average_rating := 5
            rating_count := 1
            saved_by_count := 0
            submitted_by :=
              match req.deviceId with
              | some d => if d = "" then none else some d
              | none => none }
        let db1 := { db with recipes := db.recipes ++ [newRecipe], nextRecipeId := rid + 1 }
        let db2 :=
          match recipe.ingredients with
          | some ings => ings.foldl (fun acc ing => insertIngredientLine acc rid ing) db1
          | none => db1
        let db3 :=
          match recipe.instructions with
          | some instrs =>
            { db2 with
              recipe_instructions := db2.recipe_instructions ++
                instrs.enum.map (fun p =>
                  ({ recipe_id := rid, step_number := p.1 + 1,
                     instruction := p.2 } : InstructionRow)) }
          | none => db2
        let db4 :=
          match recipe.nutrition with
          | some n =>
            { db3 with
              recipe_nutrition := db3.recipe_nutrition ++
                [⟨rid, parseNutritionValue n.calories, parseNutritionValue n.protein,
                  parseNutritionValue n.carbs, parseNutritionValue n.fat,
                  parseNutritionValue n.fiber⟩] }
          | none => db3
        let db5 :=
          match req.deviceId with
          | some d =>
            if d = "" then db4
            else
              let dbU := { db4 with recipe_usage := db4.recipe_usage ++
                [({ recipe_id := rid, device_id := d, rating := 5 } : UsageRow)] }
              -- the `rating === 5` guard is satisfied: rating was validated above
              { dbU with
                user_saved_recipes := upsertSaved dbU.user_saved_recipes rid d 5 }
          | none => db4
        (.success "Recipe saved and shared with community!" rid, db5)

/-! ## Request steps

`Step` relates a state to the state after one of the three
state-changing recipe requests.  It is the frame for the temporal
claims: what one request establishes must survive any interleaving of
further requests. -/

inductive Step : DB → DB → Prop
  | matchReq (db : DB) (req : MatchRequestBody) (ai : AiEnv) :
      Step db (matchRequest db req ai).2
  | rate (db : DB) (id : Nat) (rating : Nat) (deviceId : Option String) :
      Step db (rateRecipe db id rating deviceId).2
  | save (db : DB) (req : SaveFavoriteBody) :
      Step db (saveFavorite db req).2

/-! ## Claim theorems -/

/-- C6: `getCoreIngredient` is a pure, deterministic function — the same
input always yields the same output — and whenever two strings differ
only in letter case and in whitespace layout (their lower-cased
whitespace tokens coincide), their core ingredient keys are equal. -/
theorem getCoreIngredient_pure_and_ws_case_invariant :
    (∀ s t : String, s = t → getCoreIngredient s = getCoreIngredient t)
    ∧ (∀ s s' : String,
        wsTokens (lowerList s.data) = wsTokens (lowerList s'.data) →
        getCoreIngredient s = getCoreIngredient s') := by
  constructor
  · intro s t h
    rw [h]
  · intro s s' h
    have hc : cleanedName s.data = cleanedName s'.data := by
      rw [cleanedName_eq_tokens, cleanedName_eq_tokens, h]
    simp only [getCoreIngredient, hc]

theorem getCoreIngredient_pure_and_ws_case_invariant_witness :
    wsTokens (lowerList "Fresh  CHICKEN Breast".data) =
      wsTokens (lowerList "fresh chicken breast".data)
    ∧ getCoreIngredient "Fresh  CHICKEN Breast" = getCoreIngredient "fresh chicken breast"
    ∧ getCoreIngredient "fresh chicken breast" = "chicken" :=
  ⟨by decide,
   getCoreIngredient_pure_and_ws_case_invariant.2 "Fresh  CHICKEN Breast"
     "fresh chicken breast" (by decide),
   by decide⟩

/-- C7: an input that fails the measurement pattern parses to exactly
`amount = null, unit = null, name = trimmed input, preparation = null`
(and, being a total function, never throws); in particular every input
not beginning with a digit fails the pattern. -/
theorem parseIngredient_fallback_spec :
    (∀ s : String, matchMeasurement s.data = none →
      parseIngredient s =
        { amount := none, unit := none, name := jsTrim s, preparation := none })
    ∧ (∀ s : String, (∀ c, s.data.head? = some c → isDigitChar c = false) →
        matchMeasurement s.data = none) := by
  constructor
  · intro s h
    unfold parseIngredient
    rw [h]
  · intro s h
    cases hd : s.data with
    | nil => simp [matchMeasurement, countdown, firstSome]
    | cons c cs =>
      have hc : isDigitChar c = false := h c (by rw [hd]; rfl)
      simp [matchMeasurement, List.takeWhile_cons, hc, countdown, firstSome]

theorem parseIngredient_fallback_spec_witness :
    matchMeasurement "salt and pepper".data = none
    ∧ parseIngredient "salt and pepper" =
        { amount := none, unit := none, name := "salt and pepper",
          preparation := none } := by
  have h2 := parseIngredient_fallback_spec.2 "salt and pepper" (by decide)
  refine ⟨h2, ?_⟩
  rw [parseIngredient_fallback_spec.1 "salt and pepper" h2]
  decide

/-! ### The ORDER BY ... LIMIT 1 selection -/

/-- `x` sorts no later than `b` under
`ORDER BY average_rating DESC, rating_count DESC`. -/
def recipeLexLe (x b : Recipe) : Prop :=
  x.average_rating < b.average_rating
    ∨ (x.average_rating = b.average_rating ∧ x.rating_count ≤ b.rating_count)

theorem recipeLexLe_refl (x : Recipe) : recipeLexLe x x := Or.inr ⟨rfl, le_rfl⟩

theorem recipeLexLe_trans {x y z : Recipe} (h1 : recipeLexLe x y) (h2 : recipeLexLe y z) :
    recipeLexLe x z := by
  rcases h1 with h1 | ⟨e1, c1⟩ <;> rcases h2 with h2 | ⟨e2, c2⟩
  · exact Or.inl (lt_trans h1 h2)
  · exact Or.inl (e2 ▸ h1)
  · exact Or.inl (e1 ▸ h2)
  · exact Or.inr ⟨e1.trans e2, le_trans c1 c2⟩

theorem betterRecipe_eq_true_iff (x b : Recipe) :
    betterRecipe x b = true ↔
      (b.average_rating < x.average_rating
        ∨ (x.average_rating = b.average_rating ∧ b.rating_count < x.rating_count)) := by
  simp [betterRecipe]

theorem betterRecipe_eq_false_iff (x b : Recipe) :
    betterRecipe x b = false ↔ recipeLexLe x b := by
  rw [← Bool.not_eq_true, betterRecipe_eq_true_iff]
  unfold recipeLexLe
  constructor
  · intro h
    push_neg at h
    rcases lt_trichotomy x.average_rating b.average_rating with hlt | heq | hgt
    · exact Or.inl hlt
    · exact Or.inr ⟨heq, by have := h.2 heq; omega⟩
    · exact absurd hgt (not_lt.2 h.1)
  · rintro (hle | ⟨heq, hcnt⟩)
    · rintro (hgt | ⟨heq, _⟩)
      · exact absurd (lt_trans hle hgt) (lt_irrefl _)
      · rw [heq] at hle; exact absurd hle (lt_irrefl _)
    · rintro (hgt | ⟨_, hcnt2⟩)
      · rw [heq] at hgt; exact absurd hgt (lt_irrefl _)
      · omega

theorem betterRecipe_true_le {x b : Recipe} (h : betterRecipe x b = true) :
    recipeLexLe b x := by
  rw [betterRecipe_eq_true_iff] at h
  rcases h with h | ⟨heq, hlt⟩
  · exact Or.inl h
  · exact Or.inr ⟨heq.symm, le_of_lt hlt⟩

theorem selectStep_cases (acc : Option Recipe) (r : Recipe) :
    (selectStep acc r = some r ∧ ∀ b, acc = some b → recipeLexLe b r)
    ∨ (∃ b, acc = some b ∧ selectStep acc r = some b ∧ recipeLexLe r b) := by
  cases acc with
  | none => exact Or.inl ⟨rfl, by simp⟩
  | some b =>
    by_cases hb : betterRecipe r b = true
    · refine Or.inl ⟨by simp [selectStep, hb], ?_⟩
      intro b' hb'
      cases hb'
      exact betterRecipe_true_le hb
    · have hb' : betterRecipe r b = false := Bool.eq_false_iff.mpr hb
      refine Or.inr ⟨b, rfl, by simp [selectStep, hb'], ?_⟩
      rw [← betterRecipe_eq_false_iff]
      exact hb'

theorem selectBest_foldl_inv (rs : List Recipe) :
    ∀ (acc : Option Recipe) (m : Recipe),
      rs.foldl selectStep acc = some m →
      (m ∈ rs ∨ acc = some m)
        ∧ (∀ x ∈ rs, recipeLexLe x m)
        ∧ (∀ b, acc = some b → recipeLexLe b m) := by
  induction rs with
  | nil =>
    intro acc m h
    simp only [List.foldl_nil] at h
    refine ⟨Or.inr h, by simp, fun b hb => ?_⟩
    rw [hb] at h
    cases h
    exact recipeLexLe_refl _
  | cons r rs ih =>
    intro acc m h
    rw [List.foldl_cons] at h
    obtain ⟨hmem, hall, hacc⟩ := ih (selectStep acc r) m h
    have hrm : recipeLexLe r m ∧ ∀ b, acc = some b → recipeLexLe b m := by
      rcases selectStep_cases acc r with ⟨hstep, hprev⟩ | ⟨b, hab, hstep, hrb⟩
      · have hr := hacc r hstep
        exact ⟨hr, fun b hb => recipeLexLe_trans (hprev b hb) hr⟩
      · have hbm := hacc b hstep
        refine ⟨recipeLexLe_trans hrb hbm, fun b' hb' => ?_⟩
        rw [hab] at hb'
        cases hb'
        exact hbm
    refine ⟨?_, ?_, hrm.2⟩
    · rcases hmem with hm | hm
      · exact Or.inl (List.mem_cons_of_mem _ hm)
      · rcases selectStep_cases acc r with ⟨hstep, _⟩ | ⟨b, hab, hstep, _⟩
        · rw [hstep] at hm
          cases hm
          exact Or.inl (List.mem_cons_self _ _)
        · rw [hstep] at hm
          cases hm
          exact Or.inr hab
    · intro x hx
      rcases List.mem_cons.1 hx with hx | hx
      · exact hx ▸ hrm.1
      · exact hall x hx

theorem selectBest_spec {rs : List Recipe} {m : Recipe} (h : selectBest rs = some m) :
    m ∈ rs ∧ ∀ x ∈ rs, recipeLexLe x m := by
  obtain ⟨hmem, hall, _⟩ := selectBest_foldl_inv rs none m h
  rcases hmem with hm | hm
  · exact ⟨hm, hall⟩
  · cases hm

theorem matchDB_spec {db : DB} {core : List String} {excl : List Nat} {r : Recipe}
    (h : matchDB db core excl = some r) :
    r ∈ db.recipes ∧ qualifies db core excl r = true
      ∧ ∀ x ∈ db.recipes, qualifies db core excl x = true → recipeLexLe x r := by
  unfold matchDB matchCandidates at h
  obtain ⟨hmem, hall⟩ := selectBest_spec h
  rw [List.mem_filter] at hmem
  exact ⟨hmem.1, hmem.2, fun x hx hq => hall x (List.mem_filter.2 ⟨hx, hq⟩)⟩

theorem aiGenerate_ne_dbRecipe (ings : List String) (cuisine : Option String)
    (ai : AiEnv) (r : Recipe) : aiGenerate ings cuisine ai ≠ .dbRecipe r := by
  intro h
  unfold aiGenerate at h
  rcases ai with ⟨key, s1, s2⟩
  rcases key
  · simp at h
  · rcases s1 with _ | _ | p
    · simp at h
    · simp at h
    · rcases s2 with _ | _ | p2
      · simp at h
      · simp at h
      · rcases p2 with _ | r2
        · simp at h
        · simp at h

/-- Inverting a database hit of the match endpoint. -/
theorem matchRequest_dbRecipe_inv {db : DB} {req : MatchRequestBody} {ai : AiEnv}
    {r : Recipe} (h : (matchRequest db req ai).1 = .dbRecipe r) :
    ∃ ings, req.ingredients = some ings ∧ ings.isEmpty = false ∧
      matchDB db (queryCoreIngredients ings) (excludedRecipeIds db req.deviceId) = some r := by
  unfold matchRequest at h
  cases hi : req.ingredients with
  | none => rw [hi] at h; simp at h
  | some ings =>
    simp only [hi] at h
    by_cases he : ings.isEmpty = true
    · rw [if_pos he] at h
      simp at h
    · rw [if_neg he] at h
      cases hm : matchDB db (queryCoreIngredients ings) (excludedRecipeIds db req.deviceId) with
      | none =>
        rw [hm] at h
        exact absurd (by simpa using h) (aiGenerate_ne_dbRecipe ings req.cuisine ai r)
      | some r0 =>
        rw [hm] at h
        have hr : r0 = r := by simpa using h
        subst hr
        exact ⟨ings, rfl, Bool.eq_false_iff.mpr he, hm⟩

/-- C5: a database hit is a qualifying recipe that every other
qualifying recipe compares at most equal to under
`(average_rating DESC, rating_count DESC)`; the endpoint returns at most
one recipe (the matcher's result is one optional row). -/
theorem match_returns_best_qualifier (db : DB) (req : MatchRequestBody) (ai : AiEnv)
    (r : Recipe) (db' : DB) (ings : List String)
    (hi : req.ingredients = some ings)
    (h : matchRequest db req ai = (.dbRecipe r, db')) :
    qualifies db (queryCoreIngredients ings) (excludedRecipeIds db req.deviceId) r = true
    ∧ ∀ x ∈ db.recipes,
        qualifies db (queryCoreIngredients ings) (excludedRecipeIds db req.deviceId) x = true →
        (x.average_rating < r.average_rating
          ∨ (x.average_rating = r.average_rating ∧ x.rating_count ≤ r.rating_count)) := by
  have h1 : (matchRequest db req ai).1 = .dbRecipe r := by rw [h]
  obtain ⟨ings', hi', _, hm⟩ := matchRequest_dbRecipe_inv h1
  rw [hi] at hi'
  cases hi'
  obtain ⟨_, hq, hbest⟩ := matchDB_spec hm
  exact ⟨hq, hbest⟩

/-! ### Concrete witness states -/

def recipeBase : Recipe :=
  { id := 1, title := "Test Soup", cuisine := "american", servings := 4,
    prep_time := 10, cook_time := 20, difficulty := "easy", source := "database",
    average_rating := 4, rating_count := 2, saved_by_count := 0, submitted_by := none }

def dbEmptyW : DB :=
  { recipes := [], ingredients := [], recipe_ingredients := [],
    recipe_instructions := [], recipe_nutrition := [], recipe_views := [],
    recipe_usage := [], user_saved_recipes := [], nextRecipeId := 1,
    nextIngredientId := 1 }

def recipeW2 : Recipe :=
  { recipeBase with
    id := 2
    title := "Better Soup"
    average_rating := 5
    rating_count := 1 }

/-- Two recipes over the same two ingredients, one rated higher. -/
def dbW : DB :=
  { dbEmptyW with
    recipes := [recipeBase, recipeW2]
    ingredients := [{ id := 1, name := "broth", category := "other" },
                    { id := 2, name := "carrots", category := "other" }]
    recipe_ingredients :=
      [{ recipe_id := 1, ingredient_id := 1, amount := 1, unit := "unit", is_required := true },
       { recipe_id := 1, ingredient_id := 2, amount := 1, unit := "unit", is_required := true },
       { recipe_id := 2, ingredient_id := 1, amount := 1, unit := "unit", is_required := true },
       { recipe_id := 2, ingredient_id := 2, amount := 1, unit := "unit", is_required := true }]
    nextRecipeId := 3
    nextIngredientId := 3 }

def aiW : AiEnv := { apiKeyConfigured := false, stage1 := .threw, stage2 := .threw }

def reqW : MatchRequestBody :=
  { ingredients := some ["broth", "carrots"], dietary := none, cuisine := none,
    spicePacks := none, deviceId := none }

theorem match_returns_best_qualifier_witness :
    (matchRequest dbW reqW aiW).1 = .dbRecipe recipeW2
    ∧ qualifies dbW (queryCoreIngredients ["broth", "carrots"])
        (excludedRecipeIds dbW none) recipeW2 = true
    ∧ ∀ x ∈ dbW.recipes,
        qualifies dbW (queryCoreIngredients ["broth", "carrots"])
          (excludedRecipeIds dbW none) x = true →
        (x.average_rating < recipeW2.average_rating
          ∨ (x.average_rating = recipeW2.average_rating
              ∧ x.rating_count ≤ recipeW2.rating_count)) := by
  have h : matchRequest dbW reqW aiW = (.dbRecipe recipeW2, dbW) := by decide
  obtain ⟨hq, hbest⟩ :=
    match_returns_best_qualifier dbW reqW aiW recipeW2 dbW ["broth", "carrots"] rfl h
  exact ⟨by rw [h], hq, hbest⟩

/-- C4: the exclusion set is exactly the union of the recipe ids having
a view/rating event for the device and the recipe ids whose
`submitted_by` equals the device; an absent or empty deviceId yields the
empty exclusion set, excluding nothing. -/
theorem excludedRecipeIds_union_spec :
    (∀ (db : DB) (d : String), d ≠ "" →
      ∀ i, i ∈ excludedRecipeIds db (some d) ↔
        ((∃ v ∈ db.recipe_views, v.device_id = d ∧ v.recipe_id = i)
          ∨ (∃ r ∈ db.recipes, r.submitted_by = some d ∧ r.id = i)))
    ∧ (∀ db, excludedRecipeIds db none = [])
    ∧ (∀ db, excludedRecipeIds db (some "") = []) := by
  refine ⟨?_, fun db => rfl, fun db => by simp [excludedRecipeIds]⟩
  intro db d hd i
  simp only [excludedRecipeIds, if_neg hd, List.mem_append, viewedRecipeIds,
    submittedRecipeIds, List.mem_dedup, List.mem_map, List.mem_filter,
    decide_eq_true_eq]
  constructor
  · rintro (⟨v, ⟨hv, hdev⟩, hrid⟩ | ⟨r, ⟨hr, hsub⟩, hid⟩)
    · exact Or.inl ⟨v, hv, hdev, hrid⟩
    · exact Or.inr ⟨r, hr, hsub, hid⟩
  · rintro (⟨v, hv, hdev, hrid⟩ | ⟨r, hr, hsub, hid⟩)
    · exact Or.inl ⟨v, ⟨hv, hdev⟩, hrid⟩
    · exact Or.inr ⟨r, ⟨hr, hsub⟩, hid⟩

/-- One viewed recipe (id 1) and one self-submitted recipe (id 2) for
device `d1`. -/
def dbW4 : DB :=
  { dbEmptyW with
    recipes := [{ recipeBase with id := 2, submitted_by := some "d1" }]
    recipe_views := [{ recipe_id := 1, device_id := "d1", rating := none }]
    nextRecipeId := 3 }

theorem excludedRecipeIds_union_spec_witness :
    (1 ∈ excludedRecipeIds dbW4 (some "d1") ↔
      ((∃ v ∈ dbW4.recipe_views, v.device_id = "d1" ∧ v.recipe_id = 1)
        ∨ (∃ r ∈ dbW4.recipes, r.submitted_by = some "d1" ∧ r.id = 1)))
    ∧ 1 ∈ excludedRecipeIds dbW4 (some "d1")
    ∧ 2 ∈ excludedRecipeIds dbW4 (some "d1")
    ∧ excludedRecipeIds dbW4 none = [] :=
  ⟨excludedRecipeIds_union_spec.1 dbW4 "d1" (by decide) 1,
   by decide, by decide, excludedRecipeIds_union_spec.2.1 dbW4⟩

/-! ### C1: exact-set matching -/

/-- Well-formedness of the ingredient table: `id` is the SERIAL primary
key (equal ids mean the same row) and the canonical name is unique
case-insensitively (§3 first-writer-wins creation, maintained by the
save path's get-or-create by `LOWER(name)`). -/
def IngredientsWF (db : DB) : Prop :=
  (∀ i ∈ db.ingredients, ∀ j ∈ db.ingredients, i.id = j.id → i = j)
  ∧ (∀ i ∈ db.ingredients, ∀ j ∈ db.ingredients, lowerStr i.name = lowerStr j.name → i = j)

/-- The lower-cased names of the ingredients joined to a recipe, as a
set. -/
def recipeIngredientNameSet (db : DB) (rid : Nat) : Finset String :=
  ((joinedIngredients db rid).map (fun i => lowerStr i.name)).toFinset

theorem toFinset_map_fp {α β : Type} [DecidableEq α] [DecidableEq β]
    (f : α → β) (l : List α) : (l.map f).toFinset = l.toFinset.image f := by
  induction l with
  | nil => simp
  | cons x l ih => simp [ih]

theorem qualifies_name_set_eq {db : DB} {core : List String} {excl : List Nat}
    {r : Recipe} (hwf : IngredientsWF db)
    (hq : qualifies db core excl r = true) :
    recipeIngredientNameSet db r.id = core.toFinset := by
  have hcomp : totalIngredients db r.id = core.length
      ∧ matchedIngredients db core r.id = core.length := by
    simp only [qualifies, Bool.and_eq_true, beq_iff_eq] at hq
    exact ⟨hq.1.1.2, hq.1.2⟩
  obtain ⟨ht, hmc⟩ := hcomp
  have hJsub : ∀ i ∈ joinedIngredients db r.id, i ∈ db.ingredients := by
    intro i hi
    exact (List.mem_filter.1 hi).1
  have hidInj : Set.InjOn (fun i : Ingredient => i.id)
      ((joinedIngredients db r.id).toFinset : Set Ingredient) := by
    intro i hi j hj hij
    exact hwf.1 i (hJsub i (List.mem_toFinset.1 hi)) j (hJsub j (List.mem_toFinset.1 hj)) hij
  have hnameInj : Set.InjOn (fun i : Ingredient => lowerStr i.name)
      ((joinedIngredients db r.id).toFinset : Set Ingredient) := by
    intro i hi j hj hij
    exact hwf.2 i (hJsub i (List.mem_toFinset.1 hi)) j (hJsub j (List.mem_toFinset.1 hj)) hij
  have htotal : totalIngredients db r.id = (joinedIngredients db r.id).toFinset.card := by
    rw [totalIngredients, ← List.card_toFinset, toFinset_map_fp,
      Finset.card_image_of_injOn hidInj]
  have hname : (recipeIngredientNameSet db r.id).card =
      (joinedIngredients db r.id).toFinset.card := by
    rw [recipeIngredientNameSet, toFinset_map_fp, Finset.card_image_of_injOn hnameInj]
  -- matched = total forces every joined ingredient name into the query set
  have hmatchedcard : matchedIngredients db core r.id =
      ((joinedIngredients db r.id).toFinset.filter
        (fun i => (core.contains (lowerStr i.name)) = true)).card := by
    rw [matchedIngredients, ← List.card_toFinset, toFinset_map_fp]
    rw [Finset.card_image_of_injOn (fun i hi j hj hij => by
      have hi' := List.mem_toFinset.1 hi
      have hj' := List.mem_toFinset.1 hj
      exact hwf.1 i (hJsub i (List.mem_filter.1 hi').1)
        j (hJsub j (List.mem_filter.1 hj').1) hij)]
    rw [List.toFinset_filter]
  have hfiltereq :
      ((joinedIngredients db r.id).toFinset.filter
        (fun i => (core.contains (lowerStr i.name)) = true)) =
      (joinedIngredients db r.id).toFinset := by
    apply Finset.eq_of_subset_of_card_le (Finset.filter_subset _ _)
    rw [← hmatchedcard, hmc, ← ht, htotal]
  have hallmem : ∀ i ∈ joinedIngredients db r.id, lowerStr i.name ∈ core := by
    intro i hi
    have hmemf : i ∈ (joinedIngredients db r.id).toFinset.filter
        (fun i => (core.contains (lowerStr i.name)) = true) := by
      rw [hfiltereq]
      exact List.mem_toFinset.2 hi
    have := (Finset.mem_filter.1 hmemf).2
    exact List.elem_iff.1 this
  have hsub : recipeIngredientNameSet db r.id ⊆ core.toFinset := by
    intro s hs
    rw [recipeIngredientNameSet] at hs
    obtain ⟨i, hi, hmap⟩ := List.mem_map.1 (List.mem_toFinset.1 hs)
    rw [← hmap]
    exact List.mem_toFinset.2 (hallmem i hi)
  apply Finset.eq_of_subset_of_card_le hsub
  rw [hname, ← htotal, ht]
  exact core.toFinset_card_le

/-- C1: when the matcher answers a non-empty query from the database,
the set of the returned recipe's lower-cased ingredient names equals the
set of core ingredient keys computed from the query — same membership,
so in particular neither strict inclusion can hold.  Assumes the
ingredient-table well-formedness §3 guarantees (SERIAL ids,
case-insensitively unique canonical names). -/
theorem match_exact_ingredient_set (db : DB) (req : MatchRequestBody) (ai : AiEnv)
    (r : Recipe) (db' : DB) (ings : List String)
    (hwf : IngredientsWF db)
    (hi : req.ingredients = some ings)
    (h : matchRequest db req ai = (.dbRecipe r, db')) :
    recipeIngredientNameSet db r.id = (queryCoreIngredients ings).toFinset
    ∧ ¬ recipeIngredientNameSet db r.id ⊂ (queryCoreIngredients ings).toFinset
    ∧ ¬ (queryCoreIngredients ings).toFinset ⊂ recipeIngredientNameSet db r.id := by
  have h1 : (matchRequest db req ai).1 = .dbRecipe r := by rw [h]
  obtain ⟨ings', hi', _, hm⟩ := matchRequest_dbRecipe_inv h1
  rw [hi] at hi'
  cases hi'
  obtain ⟨_, hq, _⟩ := matchDB_spec hm
  have heq := qualifies_name_set_eq hwf hq
  refine ⟨heq, ?_, ?_⟩
  · rw [heq]
    exact fun hss => absurd rfl (Finset.ssubset_iff_subset_ne.1 hss).2
  · rw [heq]
    exact fun hss => absurd rfl (Finset.ssubset_iff_subset_ne.1 hss).2

theorem match_exact_ingredient_set_witness :
    IngredientsWF dbW
    ∧ recipeIngredientNameSet dbW recipeW2.id =
        (queryCoreIngredients ["broth", "carrots"]).toFinset := by
  have hwf : IngredientsWF dbW := by
    unfold IngredientsWF
    exact ⟨by decide, by decide⟩
  have h : matchRequest dbW reqW aiW = (.dbRecipe recipeW2, dbW) := by decide
  obtain ⟨heq, _, _⟩ :=
    match_exact_ingredient_set dbW reqW aiW recipeW2 dbW ["broth", "carrots"] hwf rfl h
  exact ⟨hwf, heq⟩

/-! ### C3 / C10: view events persist and exclude -/

def viewKeyIn (vs : List ViewRow) (rid : Nat) (d : String) : Prop :=
  ∃ v ∈ vs, v.recipe_id = rid ∧ v.device_id = d

/-- A View/Rating Event row for `(rid, d)` exists. -/
def hasViewRow (db : DB) (rid : Nat) (d : String) : Prop :=
  viewKeyIn db.recipe_views rid d

theorem hasViewRow_recordView_self (db : DB) (rid : Nat) (d : String) :
    hasViewRow (recordView db rid d) rid d := by
  unfold recordView
  by_cases h : db.recipe_views.any (fun v =>
      decide (v.recipe_id = rid) && decide (v.device_id = d)) = true
  · rw [if_pos h]
    obtain ⟨v, hv, hc⟩ := List.any_eq_true.1 h
    simp only [Bool.and_eq_true, decide_eq_true_eq] at hc
    exact ⟨v, hv, hc⟩
  · rw [if_neg h]
    exact ⟨⟨rid, d, none⟩, by simp, rfl, rfl⟩

theorem hasViewRow_recordView_mono {db : DB} {rid d : _} (rid0 : Nat) (d0 : String)
    (h : hasViewRow db rid d) : hasViewRow (recordView db rid0 d0) rid d := by
  obtain ⟨v, hv, h1, h2⟩ := h
  unfold recordView
  by_cases hc : db.recipe_views.any (fun v =>
      decide (v.recipe_id = rid0) && decide (v.device_id = d0)) = true
  · rw [if_pos hc]
    exact ⟨v, hv, h1, h2⟩
  · rw [if_neg hc]
    exact ⟨v, List.mem_append_left _ hv, h1, h2⟩

theorem viewKeyIn_upsert_mono {vs : List ViewRow} {rid d : _} (rid0 : Nat) (d0 : String)
    (rating : Nat) (h : viewKeyIn vs rid d) :
    viewKeyIn (upsertRating vs rid0 d0 rating) rid d := by
  obtain ⟨v, hv, h1, h2⟩ := h
  unfold upsertRating
  by_cases hc : vs.any (fun v =>
      decide (v.recipe_id = rid0) && decide (v.device_id = d0)) = true
  · rw [if_pos hc]
    by_cases hk : v.recipe_id = rid0 ∧ v.device_id = d0
    · exact ⟨{ v with rating := some rating }, List.mem_map.2 ⟨v, hv, by rw [if_pos hk]⟩, h1, h2⟩
    · exact ⟨v, List.mem_map.2 ⟨v, hv, by rw [if_neg hk]⟩, h1, h2⟩
  · rw [if_neg hc]
    exact ⟨v, List.mem_append_left _ hv, h1, h2⟩

theorem viewKeyIn_upsert_self (vs : List ViewRow) (rid : Nat) (d : String) (rating : Nat) :
    viewKeyIn (upsertRating vs rid d rating) rid d := by
  unfold upsertRating
  by_cases hc : vs.any (fun v =>
      decide (v.recipe_id = rid) && decide (v.device_id = d)) = true
  · rw [if_pos hc]
    obtain ⟨v, hv, hk⟩ := List.any_eq_true.1 hc
    simp only [Bool.and_eq_true, decide_eq_true_eq] at hk
    exact ⟨{ v with rating := some rating },
      List.mem_map.2 ⟨v, hv, by rw [if_pos hk]⟩, hk.1, hk.2⟩
  · rw [if_neg hc]
    exact ⟨⟨rid, d, some rating⟩, List.mem_append_right _ (by simp), rfl, rfl⟩

theorem matchRequest_snd_cases (db : DB) (req : MatchRequestBody) (ai : AiEnv) :
    (matchRequest db req ai).2 = db
    ∨ ∃ rid0 d0, (matchRequest db req ai).2 = recordView db rid0 d0 := by
  rcases req with ⟨ri, di, cu, sp, dev⟩
  unfold matchRequest
  cases ri with
  | none => exact Or.inl rfl
  | some ings =>
    dsimp only
    by_cases he : ings.isEmpty = true
    · rw [if_pos he]
      exact Or.inl rfl
    · rw [if_neg he]
      cases hm : matchDB db (queryCoreIngredients ings) (excludedRecipeIds db dev) with
      | none => exact Or.inl rfl
      | some r =>
        dsimp only
        cases dev with
        | none => exact Or.inl rfl
        | some dd =>
          dsimp only
          by_cases hdd : dd = ""
          · rw [if_pos hdd]
            exact Or.inl rfl
          · rw [if_neg hdd]
            exact Or.inr ⟨r.id, dd, rfl⟩

theorem rateRecipe_views_mono (db : DB) (id rating : Nat) (dev : Option String)
    {rid : Nat} {d : String} (h : hasViewRow db rid d) :
    hasViewRow (rateRecipe db id rating dev).2 rid d := by
  unfold rateRecipe
  by_cases h1 : (rating < 1 || rating > 5) = true
  · rw [if_pos h1]; exact h
  · rw [if_neg h1]
    cases dev with
    | none => exact h
    | some dd =>
      dsimp only
      by_cases h2 : dd = ""
      · rw [if_pos h2]; exact h
      · rw [if_neg h2]
        by_cases h3 : (!db.recipes.any fun r => decide (r.id = id)) = true
        · rw [if_pos h3]; exact h
        · rw [if_neg h3]
          exact viewKeyIn_upsert_mono id dd rating h

theorem insertIngredientLine_views (db : DB) (rid : Nat) (s : String) :
    (insertIngredientLine db rid s).recipe_views = db.recipe_views := by
  unfold insertIngredientLine
  dsimp only
  cases findIngredientId db.ingredients
    (getCoreIngredient (parseIngredient s).name) <;> rfl

theorem foldl_insertIngredientLine_views (rid : Nat) :
    ∀ (ings : List String) (db : DB),
      (ings.foldl (fun acc ing => insertIngredientLine acc rid ing) db).recipe_views =
        db.recipe_views := by
  intro ings
  induction ings with
  | nil => intro db; rfl
  | cons s ings ih =>
    intro db
    rw [List.foldl_cons, ih, insertIngredientLine_views]

theorem saveFavorite_views (db : DB) (req : SaveFavoriteBody) :
    (saveFavorite db req).2.recipe_views = db.recipe_views := by
  unfold saveFavorite
  cases req.recipe with
  | none => rfl
  | some recipe =>
    dsimp only
    by_cases ht : recipe.title = ""
    · rw [if_pos ht]
    · rw [if_neg ht]
      by_cases hr : req.rating ≠ some 5
      · rw [if_pos hr]
      · rw [if_neg hr]
        cases hfind : db.recipes.find? (fun r => decide (r.title = recipe.title)) with
        | some existing => rfl
        | none =>
          dsimp only
          cases hing : recipe.ingredients <;>
            cases hins : recipe.instructions <;>
              cases hnut : recipe.nutrition <;>
                cases hdev : req.deviceId <;>
                  (try dsimp only) <;>
                  (try rw [foldl_insertIngredientLine_views]) <;>
                  (try split) <;>
                  (try rw [foldl_insertIngredientLine_views]) <;>
                  rfl

theorem step_hasViewRow {db db' : DB} (hstep : Step db db') {rid : Nat} {d : String}
    (h : hasViewRow db rid d) : hasViewRow db' rid d := by
  cases hstep with
  | matchReq req ai =>
    rcases matchRequest_snd_cases db req ai with heq | ⟨rid0, d0, heq⟩
    · rw [heq]; exact h
    · rw [heq]; exact hasViewRow_recordView_mono rid0 d0 h
  | rate id rating dev => exact rateRecipe_views_mono db id rating dev h
  | save req =>
    unfold hasViewRow viewKeyIn
    rw [saveFavorite_views]
    exact h

theorem rtc_hasViewRow {db db' : DB} (h : Relation.ReflTransGen Step db db')
    {rid : Nat} {d : String} : hasViewRow db rid d → hasViewRow db' rid d := by
  induction h with
  | refl => exact id
  | tail _ hstep ih => exact fun hh => step_hasViewRow hstep (ih hh)

/-- A device with a view row for `rid` never gets a database hit with
that recipe id again. -/
theorem no_dbRecipe_of_viewed {db : DB} {req : MatchRequestBody} {ai : AiEnv}
    {d : String} {x : Recipe} {rid : Nat}
    (hdev : req.deviceId = some d) (hd : d ≠ "") (hview : hasViewRow db rid d)
    (h : (matchRequest db req ai).1 = .dbRecipe x) : x.id ≠ rid := by
  obtain ⟨ings, hi, hne, hm⟩ := matchRequest_dbRecipe_inv h
  obtain ⟨_, hq, _⟩ := matchDB_spec hm
  have hnotex : (excludedRecipeIds db req.deviceId).contains x.id = false := by
    simp only [qualifies, Bool.and_eq_true] at hq
    have := hq.1.1.1
    simpa using this
  have hmem : rid ∈ excludedRecipeIds db (some d) := by
    have : rid ∈ viewedRecipeIds db d := by
      obtain ⟨v, hv, h1, h2⟩ := hview
      rw [viewedRecipeIds, List.mem_dedup]
      exact List.mem_map.2 ⟨v, List.mem_filter.2 ⟨hv, by simp [h2]⟩, h1⟩
    simp only [excludedRecipeIds, if_neg hd]
    exact List.mem_append_left _ this
  intro hcon
  rw [hdev, hcon] at hnotex
  have := List.elem_iff.2 hmem
  rw [show (excludedRecipeIds db (some d)).elem rid =
        (excludedRecipeIds db (some d)).contains rid from rfl] at this
  rw [hnotex] at this
  exact Bool.false_ne_true this

/-- Computing the full result of a database hit. -/
theorem matchRequest_hit_eq (db : DB) (req : MatchRequestBody) (ai : AiEnv)
    (ings : List String) (r : Recipe)
    (hi : req.ingredients = some ings) (hne : ings.isEmpty = false)
    (hm : matchDB db (queryCoreIngredients ings) (excludedRecipeIds db req.deviceId) = some r) :
    matchRequest db req ai =
      (.dbRecipe r,
       match req.deviceId with
       | some dd => if dd = "" then db else recordView db r.id dd
       | none => db) := by
  unfold matchRequest
  simp only [hi, hne, hm]
  rw [if_neg Bool.false_ne_true]

/-- C3: on a database hit of recipe `R` for device `d`, the `(R.id, d)`
view event row is already present in the returned state (the insert
happens before the response), and after any further sequence of
requests a match request from `d` is never answered with the recipe id
`R.id` again — whatever its row's aggregates or ownership have become
in the meantime: the result is a bad request, a server error, an
AI-generated recipe, or a database recipe with a different id. -/
theorem match_exclusion_after_hit (db : DB) (req : MatchRequestBody) (ai : AiEnv)
    (r : Recipe) (db' : DB) (d : String)
    (hdev : req.deviceId = some d) (hd : d ≠ "")
    (h : matchRequest db req ai = (.dbRecipe r, db')) :
    hasViewRow db' r.id d
    ∧ ∀ db'', Relation.ReflTransGen Step db' db'' →
        ∀ (req2 : MatchRequestBody) (ai2 : AiEnv), req2.deviceId = some d →
          ∀ x, (matchRequest db'' req2 ai2).1 = .dbRecipe x → x.id ≠ r.id := by
  obtain ⟨ings, hi, hne, hm⟩ :=
    matchRequest_dbRecipe_inv (show (matchRequest db req ai).1 = .dbRecipe r by rw [h])
  have hfull := matchRequest_hit_eq db req ai ings r hi hne hm
  rw [hdev] at hfull
  dsimp only at hfull
  rw [if_neg hd] at hfull
  have hdb' : db' = recordView db r.id d := by
    have := h.symm.trans hfull
    exact congrArg Prod.snd this
  have hview : hasViewRow db' r.id d := by
    rw [hdb']
    exact hasViewRow_recordView_self db r.id d
  refine ⟨hview, ?_⟩
  intro db'' hrtc req2 ai2 hdev2 x hx
  have hv'' := rtc_hasViewRow hrtc hview
  exact no_dbRecipe_of_viewed hdev2 hd hv'' hx

def reqW1 : MatchRequestBody := { reqW with deviceId := some "d1" }

theorem match_exclusion_after_hit_witness :
    hasViewRow (recordView dbW 2 "d1") 2 "d1"
    ∧ ∀ x, (matchRequest (recordView dbW 2 "d1") reqW1 aiW).1 = .dbRecipe x →
        x.id ≠ 2 := by
  have h : matchRequest dbW reqW1 aiW = (.dbRecipe recipeW2, recordView dbW 2 "d1") := by
    decide
  obtain ⟨hv, hall⟩ :=
    match_exclusion_after_hit dbW reqW1 aiW recipeW2 (recordView dbW 2 "d1") "d1"
      rfl (by decide) h
  exact ⟨show hasViewRow (recordView dbW 2 "d1") 2 "d1" from hv,
    hall _ Relation.ReflTransGen.refl reqW1 aiW rfl⟩

/-- The `UNIQUE(recipe_id, device_id)` constraint of `recipe_views`: the
key list has no duplicates. -/
def ViewsUnique (db : DB) : Prop :=
  (db.recipe_views.map (fun v => (v.recipe_id, v.device_id))).Nodup

theorem upsertRating_keys (vs : List ViewRow) (rid : Nat) (d : String) (rating : Nat) :
    (upsertRating vs rid d rating).map (fun v => (v.recipe_id, v.device_id)) =
        vs.map (fun v => (v.recipe_id, v.device_id))
    ∨ ((upsertRating vs rid d rating).map (fun v => (v.recipe_id, v.device_id)) =
          vs.map (fun v => (v.recipe_id, v.device_id)) ++ [(rid, d)]
        ∧ (rid, d) ∉ vs.map (fun v => (v.recipe_id, v.device_id))) := by
  unfold upsertRating
  by_cases hc : vs.any (fun v =>
      decide (v.recipe_id = rid) && decide (v.device_id = d)) = true
  · rw [if_pos hc]
    left
    rw [List.map_map]
    apply List.map_congr_left
    intro v _
    by_cases hk : v.recipe_id = rid ∧ v.device_id = d
    · simp [hk]
    · simp [hk]
  · rw [if_neg hc]
    right
    refine ⟨by rw [List.map_append]; rfl, ?_⟩
    intro hmem
    apply hc
    obtain ⟨v, hv, hkey⟩ := List.mem_map.1 hmem
    refine List.any_eq_true.2 ⟨v, hv, ?_⟩
    have h1 : v.recipe_id = rid := congrArg Prod.fst hkey
    have h2 : v.device_id = d := congrArg Prod.snd hkey
    simp [h1, h2]

theorem upsertRating_nodup {vs : List ViewRow} {rid : Nat} {d : String} {rating : Nat}
    (h : (vs.map (fun v => (v.recipe_id, v.device_id))).Nodup) :
    ((upsertRating vs rid d rating).map (fun v => (v.recipe_id, v.device_id))).Nodup := by
  rcases upsertRating_keys vs rid d rating with heq | ⟨heq, hnotin⟩
  · rw [heq]; exact h
  · rw [heq]
    rw [List.nodup_append]
    exact ⟨h, List.nodup_singleton _, by
      intro a ha hb
      simp at hb
      subst hb
      exact hnotin ha⟩

theorem filter_key_length_one {vs : List ViewRow} {rid : Nat} {d : String}
    (hnodup : (vs.map (fun v => (v.recipe_id, v.device_id))).Nodup)
    (hmem : viewKeyIn vs rid d) :
    (vs.filter (fun v =>
      decide (v.recipe_id = rid) && decide (v.device_id = d))).length = 1 := by
  induction vs with
  | nil => obtain ⟨v, hv, _⟩ := hmem; simp at hv
  | cons v vs ih =>
    rw [List.map_cons, List.nodup_cons] at hnodup
    by_cases hk : v.recipe_id = rid ∧ v.device_id = d
    · rw [List.filter_cons_of_pos (by simp [hk.1, hk.2])]
      have hrest : vs.filter (fun v =>
          decide (v.recipe_id = rid) && decide (v.device_id = d)) = [] := by
        rw [List.filter_eq_nil_iff]
        intro w hw hcon
        simp only [Bool.and_eq_true, decide_eq_true_eq] at hcon
        apply hnodup.1
        rw [← hk.1, ← hk.2] at hcon
        exact List.mem_map.2 ⟨w, hw, Prod.ext hcon.1 hcon.2⟩
      rw [hrest]
      rfl
    · rw [List.filter_cons_of_neg (by
        simp only [Bool.and_eq_true, decide_eq_true_eq]
        exact fun hcon => hk hcon)]
      apply ih hnodup.2
      obtain ⟨w, hw, h1, h2⟩ := hmem
      rcases List.mem_cons.1 hw with hw | hw
      · exact absurd ⟨hw ▸ h1, hw ▸ h2⟩ hk
      · exact ⟨w, hw, h1, h2⟩

theorem mem_viewedRecipeIds_of_hasViewRow {db : DB} {rid : Nat} {d : String}
    (h : hasViewRow db rid d) : rid ∈ viewedRecipeIds db d := by
  obtain ⟨v, hv, h1, h2⟩ := h
  rw [viewedRecipeIds, List.mem_dedup]
  exact List.mem_map.2 ⟨v, List.mem_filter.2 ⟨hv, by simp [h2]⟩, h1⟩

/-- Computing a valid rate call. -/
theorem rateRecipe_valid_eq (db : DB) (id rating : Nat) (d : String)
    (h1 : 1 ≤ rating) (h5 : rating ≤ 5) (hd : d ≠ "")
    (hrec : db.recipes.any (fun r => decide (r.id = id)) = true) :
    (rateRecipe db id rating (some d)).2.recipe_views =
        upsertRating db.recipe_views id d rating
    ∧ (rateRecipe db id rating (some d)).1 =
        .success ("Recipe rated " ++ toString rating ++ " stars") := by
  unfold rateRecipe
  rw [if_neg (by
    simp only [Bool.or_eq_true, decide_eq_true_eq]
    omega)]
  dsimp only
  rw [if_neg hd]
  rw [if_neg (by simp [hrec])]
  exact ⟨rfl, rfl⟩

/-- C10: a successful rate call upserts the single `(recipe, device)`
view/rating row — preserving key uniqueness, leaving exactly one row for
the pair — which puts the recipe into the device's exclusion set, so no
subsequent match request from that device is ever answered with that
recipe id. -/
theorem rate_upserts_single_row_and_excludes (db : DB) (id rating : Nat) (d : String)
    (hwf : ViewsUnique db) (h1 : 1 ≤ rating) (h5 : rating ≤ 5) (hd : d ≠ "")
    (hrec : db.recipes.any (fun r => decide (r.id = id)) = true) :
    ViewsUnique (rateRecipe db id rating (some d)).2
    ∧ ((rateRecipe db id rating (some d)).2.recipe_views.filter
        (fun v => decide (v.recipe_id = id) && decide (v.device_id = d))).length = 1
    ∧ id ∈ excludedRecipeIds (rateRecipe db id rating (some d)).2 (some d)
    ∧ ∀ db'', Relation.ReflTransGen Step (rateRecipe db id rating (some d)).2 db'' →
        ∀ (req2 : MatchRequestBody) (ai2 : AiEnv), req2.deviceId = some d →
          ∀ x, (matchRequest db'' req2 ai2).1 = .dbRecipe x → x.id ≠ id := by
  obtain ⟨hviews, _⟩ := rateRecipe_valid_eq db id rating d h1 h5 hd hrec
  have hkeymem : hasViewRow (rateRecipe db id rating (some d)).2 id d := by
    unfold hasViewRow
    rw [hviews]
    exact viewKeyIn_upsert_self _ _ _ _
  have hnodup : ViewsUnique (rateRecipe db id rating (some d)).2 := by
    unfold ViewsUnique
    rw [hviews]
    exact upsertRating_nodup hwf
  refine ⟨hnodup, ?_, ?_, ?_⟩
  · exact filter_key_length_one hnodup hkeymem
  · simp only [excludedRecipeIds, if_neg hd]
    exact List.mem_append_left _ (mem_viewedRecipeIds_of_hasViewRow hkeymem)
  · intro db'' hrtc req2 ai2 hdev2 x hx
    exact no_dbRecipe_of_viewed hdev2 hd (rtc_hasViewRow hrtc hkeymem) hx

theorem rate_upserts_single_row_and_excludes_witness :
    ViewsUnique (rateRecipe dbW 1 4 (some "d2")).2
    ∧ ((rateRecipe dbW 1 4 (some "d2")).2.recipe_views.filter
        (fun v => decide (v.recipe_id = 1) && decide (v.device_id = "d2"))).length = 1
    ∧ 1 ∈ excludedRecipeIds (rateRecipe dbW 1 4 (some "d2")).2 (some "d2") := by
  obtain ⟨hu, hone, hmem, _⟩ :=
    rate_upserts_single_row_and_excludes dbW 1 4 "d2"
      (by unfold ViewsUnique; decide) (by decide) (by decide) (by decide) (by decide)
  exact ⟨hu, hone, hmem⟩

/-! ### C8: the two-stage AI fallback -/

/-- A match request that finds no database candidate answers with the AI
generator's result and leaves the store unchanged. -/
theorem matchRequest_miss_eq (db : DB) (req : MatchRequestBody) (ai : AiEnv)
    (ings : List String)
    (hi : req.ingredients = some ings) (hne : ings.isEmpty = false)
    (hm : matchDB db (queryCoreIngredients ings) (excludedRecipeIds db req.deviceId)
        = none) :
    matchRequest db req ai = (aiGenerate ings req.cuisine ai, db) := by
  unfold matchRequest
  simp only [hi, hne, hm]
  rw [if_neg Bool.false_ne_true]

/-- C8 (amended): when a match request falls through to the two-stage AI
generator (non-empty ingredients, no database candidate, API key
configured): if Stage 1 yields a response body — a parsed draft, or an
unparseable one replaced by the synthetic fallback recipe — then a
Stage 2 response that lacks candidates or does not parse degrades
gracefully and the client receives the Stage 1 draft; but a Stage 1
failure, and equally a thrown Stage 2 error (timeout, transport failure,
non-2xx response), is reported to the caller as the server error
"Failed to generate recipe. Please try again." — a Stage 2 throw does
not degrade to the Stage 1 draft.  The store is unchanged either way. -/
theorem ai_two_stage_fallback (db : DB) (req : MatchRequestBody) (ai : AiEnv)
    (ings : List String)
    (hi : req.ingredients = some ings) (hne : ings.isEmpty = false)
    (hkey : ai.apiKeyConfigured = true)
    (hm : matchDB db (queryCoreIngredients ings) (excludedRecipeIds db req.deviceId)
        = none) :
    (∀ p, ai.stage1 = .text p →
      (ai.stage2 = .noCandidates ∨ ai.stage2 = .text none) →
        (matchRequest db req ai).1 =
          .aiRecipe (formatIngredientLines
            (p.getD (syntheticStage1Recipe ings req.cuisine))))
    ∧ ((ai.stage1 = .threw ∨ ai.stage1 = .noCandidates ∨ ai.stage2 = .threw) →
        (matchRequest db req ai).1 =
          .serverError "Failed to generate recipe. Please try again.")
    ∧ (matchRequest db req ai).2 = db := by
  have hmr := matchRequest_miss_eq db req ai ings hi hne hm
  refine ⟨?_, ?_, by rw [hmr]⟩
  · rintro p h1 h2
    rw [hmr]
    dsimp only
    unfold aiGenerate
    simp only [hkey, Bool.not_true]
    rw [if_neg Bool.false_ne_true, h1]
    dsimp only
    rcases h2 with h2 | h2 <;> rw [h2] <;> cases p <;> rfl
  · rintro (h1 | h1 | h2)
    · rw [hmr]
      dsimp only
      unfold aiGenerate
      simp only [hkey, Bool.not_true]
      rw [if_neg Bool.false_ne_true, h1]
    · rw [hmr]
      dsimp only
      unfold aiGenerate
      simp only [hkey, Bool.not_true]
      rw [if_neg Bool.false_ne_true, h1]
    · rw [hmr]
      dsimp only
      unfold aiGenerate
      simp only [hkey, Bool.not_true]
      rw [if_neg Bool.false_ne_true]
      cases hs1 : ai.stage1 with
      | threw => rfl
      | noCandidates => rfl
      | text p => rw [h2]

/-- A Stage-1 draft for the AI-fallback scenarios. -/
def draftC8 : GenRecipe :=
  { title := "Stage One Draft"
    description := "draft"
    ingredients := some ["1 cup broth"]
    instructions := ["Simmer"]
    prepTime := "10 minutes"
    cookTime := "20 minutes"
    servings := "2"
    difficulty := "easy"
    cuisine := "american"
    nutrition := some placeholderNutrition }

def reqC8 : MatchRequestBody :=
  { ingredients := some ["unobtainium"], dietary := none, cuisine := none,
    spicePacks := none, deviceId := none }

def aiC8 : AiEnv :=
  { apiKeyConfigured := true, stage1 := .text (some draftC8), stage2 := .threw }

def aiC8w : AiEnv :=
  { apiKeyConfigured := true, stage1 := .text (some draftC8), stage2 := .noCandidates }

theorem ai_two_stage_fallback_witness :
    (matchRequest dbEmptyW reqC8 aiC8w).1 = .aiRecipe (formatIngredientLines draftC8)
    ∧ (matchRequest dbEmptyW reqC8 aiC8w).2 = dbEmptyW := by
  obtain ⟨ha, hb, hc⟩ :=
    ai_two_stage_fallback dbEmptyW reqC8 aiC8w ["unobtainium"] rfl (by decide) rfl
      (by decide)
  exact ⟨ha (some draftC8) rfl (Or.inl rfl), hc⟩

/-- C8 counterexample: Stage 1 produced a parsed draft and Stage 2 threw
(timeout, transport failure or non-2xx response): the match request is
answered with the 500 error, not with the Stage 1 draft. -/
theorem stage2_throw_is_server_error :
    aiC8.stage1 = .text (some draftC8)
    ∧ aiC8.stage2 = .threw
    ∧ (matchRequest dbEmptyW reqC8 aiC8).1 =
        .serverError "Failed to generate recipe. Please try again."
    ∧ ∀ g, (matchRequest dbEmptyW reqC8 aiC8).1 ≠ .aiRecipe g := by
  have h : (matchRequest dbEmptyW reqC8 aiC8).1 =
      .serverError "Failed to generate recipe. Please try again." := by decide
  refine ⟨rfl, rfl, h, ?_⟩
  intro g hcon
  rw [h] at hcon
  exact MatchResponse.noConfusion hcon

/-! ### C9: submitted_by attribution on rating -/

/-- The recipes table a valid rate call leaves behind: the aggregate
update, then — only when the submitted rating is 5 — the
`submitted_by` fill-in for the rated recipe if it was null. -/
theorem rateRecipe_valid_recipes (db : DB) (id rating : Nat) (d : String)
    (h1 : 1 ≤ rating) (h5 : rating ≤ 5) (hd : d ≠ "")
    (hrec : db.recipes.any (fun r => decide (r.id = id)) = true) :
    (rateRecipe db id rating (some d)).2.recipes =
      (if rating = 5 then
        (db.recipes.map (fun r =>
          if r.id = id then
            { r with
              rating_count := (ratingStats (upsertRating db.recipe_views id d rating) id).1
              average_rating := (ratingStats (upsertRating db.recipe_views id d rating) id).2 }
          else r)).map (fun r =>
            if r.id = id ∧ r.submitted_by = none then { r with submitted_by := some d }
            else r)
      else
        db.recipes.map (fun r =>
          if r.id = id then
            { r with
              rating_count := (ratingStats (upsertRating db.recipe_views id d rating) id).1
              average_rating := (ratingStats (upsertRating db.recipe_views id d rating) id).2 }
          else r)) := by
  unfold rateRecipe
  rw [if_neg (by
    simp only [Bool.or_eq_true, decide_eq_true_eq]
    omega)]
  dsimp only
  rw [if_neg hd]
  rw [if_neg (by simp [hrec])]

/-- C9 (amended): on a valid rate call every stored recipe keeps its id,
and its `submitted_by` becomes the rating device exactly when the
submitted rating is 5, the recipe is the rated one, and `submitted_by`
was previously null; in every other case — including a recipe's
first-ever rating when that rating is below 5 — `submitted_by` is left
unchanged, so a recorded submitter is never overwritten.  The trigger is
the 5-star value, not being the first rating. -/
theorem rate_submitted_by_rule (db : DB) (id rating : Nat) (d : String)
    (h1 : 1 ≤ rating) (h5 : rating ≤ 5) (hd : d ≠ "")
    (hrec : db.recipes.any (fun r => decide (r.id = id)) = true) :
    List.Forall₂ (fun r r' : Recipe =>
        r'.id = r.id ∧
        r'.submitted_by =
          (if rating = 5 ∧ r.id = id ∧ r.submitted_by = none
           then some d else r.submitted_by))
      db.recipes (rateRecipe db id rating (some d)).2.recipes := by
  rw [rateRecipe_valid_recipes db id rating d h1 h5 hd hrec]
  by_cases hrat : rating = 5
  · subst hrat
    rw [if_pos rfl, List.map_map, List.forall₂_map_right_iff, List.forall₂_same]
    intro r hr
    simp only [Function.comp_apply]
    by_cases hid : r.id = id <;> by_cases hsub : r.submitted_by = none <;>
      simp [hid, hsub]
  · rw [if_neg hrat, List.forall₂_map_right_iff, List.forall₂_same]
    intro r hr
    by_cases hid : r.id = id <;> simp [hid, hrat]

theorem rate_submitted_by_rule_witness :
    List.Forall₂ (fun r r' : Recipe =>
        r'.id = r.id ∧
        r'.submitted_by =
          (if (5 : Nat) = 5 ∧ r.id = 1 ∧ r.submitted_by = none
           then some "d1" else r.submitted_by))
      dbW.recipes (rateRecipe dbW 1 5 (some "d1")).2.recipes :=
  rate_submitted_by_rule dbW 1 5 "d1" (by decide) (by decide) (by decide) (by decide)

/-- C9 counterexample: a first-ever rating (the view/rating table is
empty beforehand) of 3 stars on a recipe with no recorded submitter
succeeds, yet afterwards every recipe's `submitted_by` is still null —
the first rater does not become the owner. -/
theorem rate_first_rating_no_owner :
    dbW.recipe_views = []
    ∧ (∀ r ∈ dbW.recipes, r.submitted_by = none)
    ∧ (rateRecipe dbW 1 3 (some "d1")).1 = .success "Recipe rated 3 stars"
    ∧ (∀ r ∈ (rateRecipe dbW 1 3 (some "d1")).2.recipes, r.submitted_by = none) := by
  refine ⟨rfl, by decide, by decide, by decide⟩

/-! ### C2: the rating aggregate invariant -/

/-- The spec's rating aggregate invariant: every recipe's stored
`(average_rating, rating_count)` pair equals the aggregate over its
stored rating events — `rating_count` is the distinct-device count of
the stored ratings and, when at least one rating is stored,
`average_rating` is their arithmetic mean. -/
def RatingInvariant (db : DB) : Prop :=
  ∀ r ∈ db.recipes,
    r.rating_count =
        ((ratedRows db.recipe_views r.id).map (fun v => v.device_id)).dedup.length
    ∧ (ratedRows db.recipe_views r.id ≠ [] →
        r.average_rating =
          ratingSum (ratedRows db.recipe_views r.id) /
            ((ratedRows db.recipe_views r.id).length : ℚ))

/-- A row with no rating contributes nothing to the rated rows. -/
theorem ratedRows_append_none (vs : List ViewRow) (rid : Nat) (d : String) (i : Nat) :
    ratedRows (vs ++ [⟨rid, d, none⟩]) i = ratedRows vs i := by
  unfold ratedRows
  rw [List.filter_append]
  simp

/-- Re-rating the `(id, d)` row changes no other recipe's rated rows. -/
theorem filter_rated_map_update (vs : List ViewRow) (id : Nat) (d : String)
    (rating : Nat) (rid : Nat) (h : ¬ rid = id) :
    (vs.map (fun v => if v.recipe_id = id ∧ v.device_id = d
        then { v with rating := some rating } else v)).filter
      (fun v => decide (v.recipe_id = rid) && v.rating.isSome)
    = vs.filter (fun v => decide (v.recipe_id = rid) && v.rating.isSome) := by
  induction vs with
  | nil => rfl
  | cons v vs ih =>
    rw [List.map_cons]
    by_cases hkey : v.recipe_id = id ∧ v.device_id = d
    · have hvne : ¬ v.recipe_id = rid := fun hcon => h ((hkey.1.symm.trans hcon).symm)
      rw [if_pos hkey,
        List.filter_cons_of_neg (by simp [hvne]),
        List.filter_cons_of_neg (by simp [hvne]),
        ih]
    · rw [if_neg hkey]
      by_cases hp : (decide (v.recipe_id = rid) && v.rating.isSome) = true
      · rw [List.filter_cons_of_pos (by exact hp),
          List.filter_cons_of_pos (by exact hp), ih]
      · rw [List.filter_cons_of_neg (by exact hp),
          List.filter_cons_of_neg (by exact hp)]
        exact ih

theorem ratedRows_upsertRating_ne (vs : List ViewRow) (id : Nat) (d : String)
    (rating : Nat) (rid : Nat) (h : ¬ rid = id) :
    ratedRows (upsertRating vs id d rating) rid = ratedRows vs rid := by
  unfold upsertRating
  by_cases hc : (vs.any fun v =>
      decide (v.recipe_id = id) && decide (v.device_id = d)) = true
  · rw [if_pos hc]
    exact filter_rated_map_update vs id d rating rid h
  · rw [if_neg hc]
    unfold ratedRows
    rw [List.filter_append]
    have hnil : ([(⟨id, d, some rating⟩ : ViewRow)].filter
        (fun v => decide (v.recipe_id = rid) && v.rating.isSome)) = [] := by
      simp [show ¬ id = rid from fun hcon => h hcon.symm]
    rw [hnil, List.append_nil]

theorem recordView_preserves_invariant (db : DB) (rid : Nat) (d : String)
    (h : RatingInvariant db) : RatingInvariant (recordView db rid d) := by
  unfold recordView
  by_cases hc : (db.recipe_views.any fun v =>
      decide (v.recipe_id = rid) && decide (v.device_id = d)) = true
  · rw [if_pos hc]
    exact h
  · rw [if_neg hc]
    intro r hr
    dsimp only at hr ⊢
    rw [ratedRows_append_none]
    exact h r hr

theorem matchRequest_preserves_invariant (db : DB) (req : MatchRequestBody)
    (ai : AiEnv) (h : RatingInvariant db) :
    RatingInvariant (matchRequest db req ai).2 := by
  rcases matchRequest_snd_cases db req ai with heq | ⟨rid, d, heq⟩
  · rw [heq]
    exact h
  · rw [heq]
    exact recordView_preserves_invariant db rid d h

theorem rateRecipe_preserves_invariant (db : DB) (id rating : Nat)
    (dev : Option String) (h : RatingInvariant db) :
    RatingInvariant (rateRecipe db id rating dev).2 := by
  unfold rateRecipe
  by_cases hb : (rating < 1 || rating > 5) = true
  · rw [if_pos hb]
    exact h
  · rw [if_neg hb]
    cases dev with
    | none => exact h
    | some d =>
      dsimp only
      by_cases hd : d = ""
      · rw [if_pos hd]
        exact h
      · rw [if_neg hd]
        by_cases hrec : (db.recipes.any fun r => decide (r.id = id)) = true
        · rw [if_neg (by simp [hrec])]
          intro r' hr'
          dsimp only at hr' ⊢
          by_cases hrat : rating = 5
          · rw [if_pos hrat, List.map_map] at hr'
            obtain ⟨r, hr, rfl⟩ := List.mem_map.1 hr'
            obtain ⟨hcount, havg⟩ := h r hr
            simp only [Function.comp_apply]
            by_cases hid : r.id = id
            · rw [if_pos hid]
              by_cases hsub : r.submitted_by = none
              · rw [if_pos (show ({ r with
                    rating_count := (ratingStats
                      (upsertRating db.recipe_views id d rating) id).1
                    average_rating := (ratingStats
                      (upsertRating db.recipe_views id d rating) id).2 } : Recipe).id = id
                      ∧ ({ r with
                    rating_count := (ratingStats
                      (upsertRating db.recipe_views id d rating) id).1
                    average_rating := (ratingStats
                      (upsertRating db.recipe_views id d rating) id).2 } : Recipe).submitted_by
                        = none from ⟨hid, hsub⟩)]
                refine ⟨?_, fun _ => ?_⟩ <;> dsimp only <;> rw [hid] <;> rfl
              · rw [if_neg (show ¬ (({ r with
                    rating_count := (ratingStats
                      (upsertRating db.recipe_views id d rating) id).1
                    average_rating := (ratingStats
                      (upsertRating db.recipe_views id d rating) id).2 } : Recipe).id = id
                      ∧ ({ r with
                    rating_count := (ratingStats
                      (upsertRating db.recipe_views id d rating) id).1
                    average_rating := (ratingStats
                      (upsertRating db.recipe_views id d rating) id).2 } : Recipe).submitted_by
                        = none) from fun hcon => hsub hcon.2)]
                refine ⟨?_, fun _ => ?_⟩ <;> dsimp only <;> rw [hid] <;> rfl
            · rw [if_neg hid,
                if_neg (show ¬ (r.id = id ∧ r.submitted_by = none) from
                  fun hcon => hid hcon.1)]
              rw [ratedRows_upsertRating_ne _ _ _ _ _ hid]
              exact ⟨hcount, havg⟩
          · rw [if_neg hrat] at hr'
            obtain ⟨r, hr, rfl⟩ := List.mem_map.1 hr'
            obtain ⟨hcount, havg⟩ := h r hr
            by_cases hid : r.id = id
            · rw [if_pos hid]
              refine ⟨?_, fun _ => ?_⟩ <;> dsimp only <;> rw [hid] <;> rfl
            · rw [if_neg hid]
              rw [ratedRows_upsertRating_ne _ _ _ _ _ hid]
              exact ⟨hcount, havg⟩
        · rw [if_pos (by simp [hrec])]
          exact h

/-- The two rating-recording operations of the per-recipe endpoints:
recording a view through a match request and recording a rating.  The
save-favorite endpoint is deliberately not among them. -/
inductive RatingStep : DB → DB → Prop
  | matchReq (db : DB) (req : MatchRequestBody) (ai : AiEnv) :
      RatingStep db (matchRequest db req ai).2
  | rate (db : DB) (id : Nat) (rating : Nat) (deviceId : Option String) :
      RatingStep db (rateRecipe db id rating deviceId).2

/-- C2 (amended): the rating aggregate invariant — every recipe's
`(average_rating, rating_count)` pair equals the aggregate over its
stored rating events, distinct-device count and arithmetic mean — is
preserved by every sequence of match and rate requests.  It is NOT
preserved by the save-favorite endpoint, whose existing-title path
increments the pair without storing any rating event (see the
counterexample), so the pair is not always derivable from the rating
events. -/
theorem rating_aggregate_invariant_preserved (db db' : DB)
    (h : RatingInvariant db) (hsteps : Relation.ReflTransGen RatingStep db db') :
    RatingInvariant db' := by
  induction hsteps with
  | refl => exact h
  | tail hs hstep ih =>
    cases hstep with
    | matchReq req ai => exact matchRequest_preserves_invariant _ req ai ih
    | rate id rating dev => exact rateRecipe_preserves_invariant _ id rating dev ih

/-- A pristine recipe: no ratings yet, aggregates at zero. -/
def dbC2 : DB :=
  { dbEmptyW with
    recipes := [{ recipeBase with average_rating := 0, rating_count := 0 }]
    nextRecipeId := 2 }

theorem rating_aggregate_invariant_preserved_witness :
    RatingInvariant (rateRecipe dbC2 1 4 (some "d2")).2 := by
  apply rating_aggregate_invariant_preserved dbC2
  · unfold RatingInvariant
    decide
  · exact Relation.ReflTransGen.single (RatingStep.rate dbC2 1 4 (some "d2"))

def saveReqC2 : SaveFavoriteBody :=
  { recipe := some
      { title := "Test Soup", cuisine := none, servings := none,
        prepTime := .absent, cookTime := .absent, difficulty := none,
        ingredients := none, instructions := none, nutrition := none }
    deviceId := some "d1"
    rating := some 5 }

/-- C2 counterexample: the save-favorite endpoint breaks the rating
aggregate invariant: saving an already-stored title increments
`rating_count` and shifts `average_rating` without storing any rating
event, so afterwards the pair no longer equals the aggregate over the
recipe's (unchanged) rating events. -/
theorem save_favorite_breaks_rating_invariant :
    RatingInvariant dbC2
    ∧ (saveFavorite dbC2 saveReqC2).1 = .success "Recipe rating updated" 1
    ∧ (saveFavorite dbC2 saveReqC2).2.recipe_views = dbC2.recipe_views
    ∧ ¬ RatingInvariant (saveFavorite dbC2 saveReqC2).2 := by
  refine ⟨?_, by decide, rfl, ?_⟩
  · unfold RatingInvariant
    decide
  · unfold RatingInvariant
    decide

end FridgePodge
